import Mathlib

/-!
Shallow embedding of the structural formatting core of the document-generator
repository (files `formatting/utils/structural_pipeline.py`,
`formatting/utils/section_detector.py`, `formatting/utils/formatter.py`),
together with theorems settling the specification claims about it.

Python strings are modelled as `List Char` where character-level operations
matter (strip / splitlines / upper / regex matching), and as Lean `String`
where they are only compared for equality (section-type and block-kind tags).
Character classes (`isspace`, `isupper`, …) are modelled over the ASCII range
plus the few extra whitespace code points Python treats as whitespace.
-/

set_option maxRecDepth 4096

namespace DocGen

/-! ## Mapper data model (structural_pipeline.py, Step 3)

`DraftBlock` is one entry of the list produced by `parse_draft_structurally`
(`{block_type, text, section_type, hint}`; `hint` is a diagnostic shortening of
`text` and is not consulted by the mapper, so it is omitted).
`Slot` is one entry of the rulebook's `layout_pattern`
(only the fields the mapper reads: `section_type`, `block_kind`, `style`).
`MapRecord` is one entry of the mapping report. -/

structure DraftBlock where
  block_type : String
  text : String
  section_type : String
  deriving DecidableEq, Inhabited, Repr

structure Slot where
  section_type : String
  block_kind : String
  style : String
  deriving DecidableEq, Inhabited, Repr

structure MapRecord where
  slot_index : Nat
  template_type : String
  draft_index : Option Nat
  match_status : String
  note : String
  deriving DecidableEq, Inhabited, Repr

/-- The inner search loops of `map_draft_to_template`: first index `d_idx`
with `not consumed[d_idx]` and `p d`.  `consumed` always has the same length
as the draft list (it is created as `[False] * len(draft_blocks)` and only
updated in place). -/
def firstFree (p : DraftBlock → Bool) : List DraftBlock → List Bool → Option Nat
  | [], _ => none
  | _ :: _, [] => none
  | d :: ds, c :: cs =>
    if !c && p d then some 0 else (firstFree p ds cs).map (· + 1)

/-- The three-stage choice of `map_draft_to_template` (lines 166-184): first
unconsumed draft block with the slot's section type; failing that (for a
`body` slot, and then unconditionally as the final fallback) the first
unconsumed block of any type. -/
def mapChoose (draft : List DraftBlock) (consumed : List Bool)
    (template_type : String) : Option Nat :=
  let chosen0 := firstFree (fun d => d.section_type == template_type) draft consumed
  let chosen1 :=
    if chosen0 = none && template_type == "body" then
      firstFree (fun _ => true) draft consumed
    else chosen0
  if chosen1 = none then firstFree (fun _ => true) draft consumed
  else chosen1

/-- One iteration of the slot loop of `map_draft_to_template` (lines 162-223):
given the consumed flags, the running slot index and the slot, produce the
mapped `(block_type, text)` pair, the `MapRecord`, and the updated flags. -/
def mapStep (draft : List DraftBlock) (consumed : List Bool) (slot_idx : Nat)
    (slot : Slot) : (String × String) × MapRecord × List Bool :=
  match mapChoose draft consumed slot.section_type with
  | some j =>
    ((if slot.block_kind == "signature_line" then
        ("signature_line", (draft.getD j default).text)
      else if slot.block_kind == "line" then
        ("line", (draft.getD j default).text)
      else if slot.block_kind == "section_underline" then
        ("section_underline", "")
      else ((draft.getD j default).block_type, (draft.getD j default).text)),
     { slot_index := slot_idx
       template_type := slot.section_type
       draft_index := some j
       match_status :=
         if (draft.getD j default).section_type == slot.section_type then "ok"
         else "mapped"
       note := "draft block " ++ toString j ++ " (" ++
         (draft.getD j default).section_type ++ ") -> slot " ++
         toString slot_idx ++ " (" ++ slot.section_type ++ ")" },
     consumed.set j true)
  | none =>
    ((if slot.block_kind == "section_underline" then ("section_underline", "")
      else if slot.block_kind == "line" then ("line", "")
      else if slot.block_kind == "signature_line" then ("signature_line", "")
      else (slot.style, "")),
     { slot_index := slot_idx
       template_type := slot.section_type
       draft_index := none
       match_status := "empty"
       note := "no draft block for slot " ++ toString slot_idx ++ " (" ++
         slot.section_type ++ ")" },
     consumed)

/-- The slot loop of `map_draft_to_template`, threading the consumed flags. -/
def mapGo (draft : List DraftBlock) :
    List Slot → List Bool → Nat → List (String × String) × List MapRecord
  | [], _, _ => ([], [])
  | slot :: rest, consumed, idx =>
    ((mapStep draft consumed idx slot).1 ::
      (mapGo draft rest (mapStep draft consumed idx slot).2.2 (idx + 1)).1,
     (mapStep draft consumed idx slot).2.1 ::
      (mapGo draft rest (mapStep draft consumed idx slot).2.2 (idx + 1)).2)

/-- `map_draft_to_template(draft_blocks, template_slots)` from
`structural_pipeline.py` (lines 149-224): returns `(mapped_blocks, report)`. -/
def map_draft_to_template (draft : List DraftBlock) (slots : List Slot) :
    List (String × String) × List MapRecord :=
  mapGo draft slots (List.replicate draft.length false) 0

/-! ## Inline emphasis parser (formatter.py, lines 20-41)

`parse_inline_formatting_markers` splits the text on the tokens `**`, `__`
and `*` (in that priority, scanning left to right, exactly as
`re.split(r"(\*\*|__|\*)", text)` does), treats each marker as a toggle of
the corresponding flag, and emits every nonempty run of ordinary characters
as one segment carrying the current flags. -/

inductive MTok where
  | bb
  | uu
  | it
  | ch (c : Char)
  deriving DecidableEq, Repr

/-- Left-to-right tokenization of `re.split(r"(\*\*|__|\*)", text)`:
at each position `**` is preferred over `*`; a lone `_` is an ordinary
character. -/
def tokenizeMarkers : List Char → List MTok
  | [] => []
  | [c] => if c = '*' then [MTok.it] else [MTok.ch c]
  | c1 :: c2 :: cs =>
    if c1 = '*' && c2 = '*' then MTok.bb :: tokenizeMarkers cs
    else if c1 = '_' && c2 = '_' then MTok.uu :: tokenizeMarkers cs
    else if c1 = '*' then MTok.it :: tokenizeMarkers (c2 :: cs)
    else MTok.ch c1 :: tokenizeMarkers (c2 :: cs)

/-- The pieces that `re.split` hands to the loop: the three marker tokens,
and each maximal nonempty run of ordinary characters as one text piece
(empty in-between strings are skipped by `if t:`). -/
inductive Piece where
  | bb
  | uu
  | it
  | txt (s : List Char)
  deriving DecidableEq, Repr

/-- Group consecutive ordinary-character tokens into text pieces
(`acc` holds the current run, reversed). -/
def groupGo : List MTok → List Char → List Piece
  | [], acc => if acc = [] then [] else [Piece.txt acc.reverse]
  | MTok.bb :: ts, acc =>
    (if acc = [] then [] else [Piece.txt acc.reverse]) ++
      Piece.bb :: groupGo ts []
  | MTok.uu :: ts, acc =>
    (if acc = [] then [] else [Piece.txt acc.reverse]) ++
      Piece.uu :: groupGo ts []
  | MTok.it :: ts, acc =>
    (if acc = [] then [] else [Piece.txt acc.reverse]) ++
      Piece.it :: groupGo ts []
  | MTok.ch c :: ts, acc => groupGo ts (c :: acc)

/-- Adjacent-pair condition used to state that a marker pair `__` never
survives tokenization: two neighbouring characters are not both `_`. -/
def charPairOk (c1 c2 : Char) : Bool := !(c1 = '_' && c2 = '_')

/-- No two adjacent underscores anywhere in a character list. -/
def noAdjUU : List Char → Bool
  | [] => true
  | [_] => true
  | c1 :: c2 :: cs => charPairOk c1 c2 && noAdjUU (c2 :: cs)

/-- `charPairOk` lifted to tokens: only two adjacent ordinary-character
tokens can form a forbidden pair. -/
def tokPairOk : MTok → MTok → Bool
  | MTok.ch c1, MTok.ch c2 => charPairOk c1 c2
  | _, _ => true

/-- No two adjacent ordinary-character tokens carrying `_` in a token
list. -/
def tokNoAdjUU : List MTok → Bool
  | [] => true
  | [_] => true
  | t1 :: t2 :: ts => tokPairOk t1 t2 && tokNoAdjUU (t2 :: ts)

/-- One output segment: `(segment_text, bold, italic, underline)`. -/
structure Seg where
  text : List Char
  bold : Bool
  italic : Bool
  underline : Bool
  deriving DecidableEq, Repr

/-- The token loop of `parse_inline_formatting_markers`: `**` toggles bold,
`__` toggles underline, `*` toggles italic, and every nonempty text piece is
emitted as a segment carrying the current flags. -/
def segsFromPieces : List Piece → Bool → Bool → Bool → List Seg
  | [], _, _, _ => []
  | Piece.bb :: ps, b, i, u => segsFromPieces ps (!b) i u
  | Piece.uu :: ps, b, i, u => segsFromPieces ps b i (!u)
  | Piece.it :: ps, b, i, u => segsFromPieces ps b (!i) u
  | Piece.txt s :: ps, b, i, u => ⟨s, b, i, u⟩ :: segsFromPieces ps b i u

/-- `parse_inline_formatting_markers(text)` from `formatter.py`. -/
def parse_inline_formatting_markers (text : List Char) : List Seg :=
  if text = [] then [⟨[], false, false, false⟩]
  else if segsFromPieces (groupGo (tokenizeMarkers text) []) false false false
      = [] then
    [⟨[], false, false, false⟩]
  else segsFromPieces (groupGo (tokenizeMarkers text) []) false false false

/-! ## Python string primitives

Python strings are modelled as `List Char`.  `isPySpace` is Python's
`str.isspace` / `str.strip()` character class and `isLineBreak` the
`str.splitlines` boundary class, restricted to the code points that matter
for ASCII legal-document text (ASCII whitespace, the C1/Unicode line
separators, NBSP). -/

def isPySpace (c : Char) : Bool :=
  c = ' ' || c = '\t' || c = '\n' || c = '\r' || c = '\x0b' || c = '\x0c' ||
  c = '\x1c' || c = '\x1d' || c = '\x1e' || c = '\x1f' || c = '\x85' ||
  c = '\xa0' || c = '\u2028' || c = '\u2029'

def isLineBreak (c : Char) : Bool :=
  c = '\n' || c = '\r' || c = '\x0b' || c = '\x0c' || c = '\x1c' ||
  c = '\x1d' || c = '\x1e' || c = '\x85' || c = '\u2028' || c = '\u2029'

/-- Python `str.strip()`. -/
def pyStrip (l : List Char) : List Char :=
  ((l.dropWhile isPySpace).reverse.dropWhile isPySpace).reverse

/-- Python `str.splitlines()`: split on line-break characters, treating
`\r\n` as a single boundary; a trailing break adds no empty final line. -/
def pySplitlines : List Char → List (List Char)
  | [] => []
  | [c] => if isLineBreak c then [[]] else [[c]]
  | c1 :: c2 :: cs =>
    if c1 = '\r' && c2 = '\n' then [] :: pySplitlines cs
    else if isLineBreak c1 then [] :: pySplitlines (c2 :: cs)
    else
      match pySplitlines (c2 :: cs) with
      | [] => [[c1]]
      | l :: ls => (c1 :: l) :: ls

/-- Python `"\n".join(lines)`. -/
def joinNL : List (List Char) → List Char
  | [] => []
  | [l] => l
  | l :: ls => l ++ '\n' :: joinNL ls

/-- Prefix test on character lists. -/
def listPrefixOf : List Char → List Char → Bool
  | [], _ => true
  | _ :: _, [] => false
  | a :: as, b :: bs => a = b && listPrefixOf as bs

/-- Python substring test `needle in haystack`. -/
def containsSub (p : List Char) : List Char → Bool
  | [] => listPrefixOf p []
  | c :: ts => listPrefixOf p (c :: ts) || containsSub p ts

/-- Python `str.upper()` (ASCII). -/
def pyUpper (l : List Char) : List Char := l.map Char.toUpper

/-- Python `str.lower()` (ASCII). -/
def pyLower (l : List Char) : List Char := l.map Char.toLower

/-- Python `str.isupper()` (ASCII): some cased character, and no lowercase
character. -/
def pyIsUpper (l : List Char) : Bool :=
  l.any (fun c => c.isLower || c.isUpper) && l.all (fun c => !c.isLower)

/-! ## Text normalizer (structural_pipeline.py, lines 231-257) -/

/-- The comprehension `[ln.strip() for ln in t.splitlines() if ln.strip()]`. -/
def stripLines (t : List Char) : List (List Char) :=
  (pySplitlines t).filterMap
    (fun ln => if pyStrip ln = [] then none else some (pyStrip ln))

/-- The closed `title_phrases` tuple of `_looks_like_title_phrase`. -/
def TITLE_PHRASES : List (List Char) :=
  ["SUMMONS".toList, "COMPLAINT".toList, "VERIFIED".toList,
   "JURY TRIAL DEMANDED".toList, "AS AND FOR A FIRST CAUSE OF ACTION".toList,
   "CAUSE OF ACTION".toList, "NOTICE OF MOTION".toList, "AFFIRMATION".toList,
   "AFFIDAVIT".toList, "MEMORANDUM".toList]

/-- `_looks_like_title_phrase(text)`: a known title phrase occurs in the
upper-cased stripped text, or the text is short and fully uppercase. -/
def looksLikeTitlePhrase (text : List Char) : Bool :=
  TITLE_PHRASES.any (fun p => containsSub p (pyUpper (pyStrip text))) ||
    (decide ((pyUpper (pyStrip text)).length < 50) &&
      pyIsUpper (pyUpper (pyStrip text)))

/-- The per-section-type rule summary consulted by the normalizer.  The
Python dict built by `build_formatting_rulebook` carries further keys
(alignment, spacing, indent, bold) that `normalize_text_for_slot` never
reads; only the consulted `all_caps_typical` flag is modelled. -/
structure TypeRules where
  all_caps_typical : Bool
  deriving DecidableEq, Inhabited, Repr

/-- `normalize_text_for_slot(text, slot, rules_by_type)` from
`structural_pipeline.py`: collapse internal newlines to single line breaks;
on an all-caps-typical `caption`/`body` slot, a short title phrase is
upper-cased into the local variable `t` — but the returned value is
`"\n".join(lines)` where `lines` was computed from the original stripped
text, exactly as in the source. -/
def normalize_text_for_slot (text : List Char) (slot : Slot)
    (rulesByType : String → Option TypeRules) : List Char :=
  if text = [] || pyStrip text = [] then
    (if text = [] then [] else pyStrip text)
  else
    (if stripLines (pyStrip text) = [] then
      (if (match rulesByType slot.section_type with
            | some r => r.all_caps_typical
            | none => false) &&
          (slot.section_type == "caption" || slot.section_type == "body") &&
          decide ((pyStrip text).length < 80) &&
          looksLikeTitlePhrase (pyStrip text) then
        pyUpper (pyStrip text)
      else pyStrip text)
    else joinNL (stripLines (pyStrip text)))

/-! ## Regular expression engine

Brzozowski-derivative matcher used to embed the `re` patterns of
`section_detector.py`.  `reFull` is a `re.match` against a pattern ending in
`$` (a stripped subject has no trailing newline, so `$` means end of string);
`reMatchHere` is a plain `re.match` (match a prefix).  The smart constructors
`mkSeq`/`mkAlt` only collapse `fail`/`eps` units and do not change the
recognised language. -/

inductive RE where
  | fail
  | eps
  | cls (p : Char → Bool)
  | seq (a b : RE)
  | alt (a b : RE)
  | star (a : RE)

def nullable : RE → Bool
  | RE.fail => false
  | RE.eps => true
  | RE.cls _ => false
  | RE.seq a b => nullable a && nullable b
  | RE.alt a b => nullable a || nullable b
  | RE.star _ => true

def mkSeq : RE → RE → RE
  | RE.fail, _ => RE.fail
  | _, RE.fail => RE.fail
  | RE.eps, b => b
  | a, RE.eps => a
  | a, b => RE.seq a b

def mkAlt : RE → RE → RE
  | RE.fail, b => b
  | a, RE.fail => a
  | a, b => RE.alt a b

def deriv : RE → Char → RE
  | RE.fail, _ => RE.fail
  | RE.eps, _ => RE.fail
  | RE.cls p, c => if p c then RE.eps else RE.fail
  | RE.seq a b, c =>
    if nullable a then mkAlt (mkSeq (deriv a c) b) (deriv b c)
    else mkSeq (deriv a c) b
  | RE.alt a b, c => mkAlt (deriv a c) (deriv b c)
  | RE.star a, c => mkSeq (deriv a c) (RE.star a)

/-- Whole-string match (`re.match` with a pattern anchored by `$`). -/
def reFull : RE → List Char → Bool
  | r, [] => nullable r
  | r, c :: cs => reFull (deriv r c) cs

/-- Prefix match (`re.match` without `$`). -/
def reMatchHere : RE → List Char → Bool
  | r, [] => nullable r
  | r, c :: cs => nullable r || reMatchHere (deriv r c) cs

def chr (c : Char) : RE := RE.cls (fun x => x = c)

def chrCI (c : Char) : RE := RE.cls (fun x => x.toLower = c.toLower)

def strL (s : String) : List Char := s.toList

def strRE (s : String) : RE :=
  (strL s).foldr (fun c r => RE.seq (chr c) r) RE.eps

def strCI (s : String) : RE :=
  (strL s).foldr (fun c r => RE.seq (chrCI c) r) RE.eps

def rplus (a : RE) : RE := RE.seq a (RE.star a)

def ropt (a : RE) : RE := RE.alt a RE.eps

def nseq : Nat → RE → RE
  | 0, _ => RE.eps
  | n + 1, a => RE.seq a (nseq n a)

def atLeast (n : Nat) (a : RE) : RE := RE.seq (nseq n a) (RE.star a)

def altList : List RE → RE
  | [] => RE.fail
  | [r] => r
  | r :: rs => RE.alt r (altList rs)

def seqList : List RE → RE
  | [] => RE.eps
  | [r] => r
  | r :: rs => RE.seq r (seqList rs)

/-- `\s` (same character class as `str.strip`, see `isPySpace`). -/
def reSpace : RE := RE.cls isPySpace

/-- `\d`. -/
def reDigit : RE := RE.cls Char.isDigit

/-- `[A-Za-z]` (also `[A-Z]` under `re.IGNORECASE`). -/
def reAlpha : RE := RE.cls (fun c => c.isUpper || c.isLower)

/-! ## Rule-based classifier (section_detector.py)

Ontology block types from `legal_block_ontology.py`. -/

def COURT_HEADER : String := "court_header"
def COUNTY_LINE : String := "county_line"
def CAPTION_PARTY : String := "caption_party"
def CAPTION_ROLE : String := "caption_role"
def VERSUS_LINE : String := "versus_line"
def DOC_TITLE : String := "doc_title"
def NOTICE_TO_LINE : String := "notice_to_line"
def SECTION_HEADING : String := "section_heading"
def CAUSE_OF_ACTION_HEADING : String := "cause_of_action_heading"
def CAUSE_OF_ACTION_TITLE : String := "cause_of_action_title"
def BODY_PARAGRAPH : String := "body_paragraph"
def LEGAL_ALLEGATION : String := "legal_allegation"
def NUMBERED_PARAGRAPH : String := "numbered_paragraph"
def WHEREFORE_CLAUSE : String := "wherefore_clause"
def SIGNATURE_LINE : String := "signature_line"
def SIGNATURE_BLOCK : String := "signature_block"
def FIRM_BLOCK_LINE : String := "firm_block_line"
def VERIFICATION_HEADING : String := "verification_heading"
def VERIFICATION_BODY : String := "verification_body"
def SUMMONS_BODY : String := "summons_body"
def LINE : String := "line"
def EMPTY : String := "empty"
def MATTER_OF_LINE : String := "matter_of_line"
def NOTICE_JURAT_BLOCK : String := "jurat_block"
def DAMAGES_HEADING : String := "damages_heading"
def LIST_INTRO : String := "list_intro"
def BULLET_ITEM : String := "bullet_item"
def DATING_LINE : String := "dating_line"
def PHONE_FAX_LINE : String := "phone_fax_line"
def EMAIL_LINE : String := "email_line"

def startsWithList : List Char → List Char → Bool
  | [], _ => true
  | _ :: _, [] => false
  | a :: as, b :: bs => a = b && startsWithList as bs

def endsWithList (suf t : List Char) : Bool :=
  startsWithList suf.reverse t.reverse

/-- Python `str.split()` (split on whitespace runs, no empties);
`acc` holds the current word, reversed. -/
def wordsGo : List Char → List Char → List (List Char)
  | [], acc => if acc = [] then [] else [acc.reverse]
  | c :: cs, acc =>
    if isPySpace c then
      (if acc = [] then [] else [acc.reverse]) ++ wordsGo cs []
    else wordsGo cs (c :: acc)

def pySplitWS (t : List Char) : List (List Char) := wordsGo t []

/-- The character set of `_is_separator_line`
(`" \t_-."` plus no-break space). -/
def isSepChar (c : Char) : Bool :=
  c = ' ' || c = '\t' || c = '_' || c = '-' || c = '.' || c = '\xa0'

/-- Strip one trailing `X`/`x` (then re-strip), as in `_is_separator_line`. -/
def sepCore (t : List Char) : List Char :=
  if endsWithList (strL "X") t || endsWithList (strL "x") t then
    pyStrip t.dropLast
  else t

/-- `_is_separator_line(text)` from `section_detector.py` (lines 44-51). -/
def isSeparatorLine (text : List Char) : Bool :=
  if pyStrip text = [] || decide ((pyStrip text).length < 3) then false
  else (sepCore (pyStrip text)).all isSepChar

/-- `\w` for the word-boundary search. -/
def isWordChar (c : Char) : Bool :=
  c.isUpper || c.isLower || c.isDigit || c = '_'

/-- Case-insensitive literal match at the current position, returning the
remaining text. -/
def matchCIAt : List Char → List Char → Option (List Char)
  | [], t => some t
  | _ :: _, [] => none
  | p :: ps, c :: cs => if c.toLower = p.toLower then matchCIAt ps cs else none

def boundaryOkBefore : Option Char → Bool
  | none => true
  | some p => !isWordChar p

def boundaryOkAfter : List Char → Bool
  | [] => true
  | c :: _ => !isWordChar c

/-- `re.search(r"\b(w1|w2|...)\b", t, re.I)` for literal words consisting of
word characters: scan every position, tracking the previous character for the
left boundary. -/
def searchWordsCI (ws : List (List Char)) : Option Char → List Char → Bool
  | _, [] => false
  | prev, c :: cs =>
    (boundaryOkBefore prev && ws.any (fun w =>
      match matchCIAt w (c :: cs) with
      | some rest => boundaryOkAfter rest
      | none => false)) || searchWordsCI ws (some c) cs

/-- `re.sub(r"^\d+[\.\)]\s+", "", t)`: drop a leading digit run followed by
`.`/`)` and at least one whitespace character; otherwise leave `t` alone
(the three sub-patterns use disjoint character classes, so maximal-munch
equals the regex's greedy semantics). -/
def dropNumPrefix (t : List Char) : List Char :=
  if t.takeWhile Char.isDigit = [] then t
  else
    match t.dropWhile Char.isDigit with
    | [] => t
    | c :: rest2 =>
      if c = '.' || c = ')' then
        if rest2.takeWhile isPySpace = [] then t
        else rest2.dropWhile isPySpace
      else t

/-! ### The regex patterns of `classify_paragraph`, in source order. -/

/-- `^[A-Z0-9\s\-\.\,]{4,}$` (court caption / county line). -/
def reCourtClass : RE :=
  atLeast 4 (RE.cls (fun c =>
    c.isUpper || c.isDigit || isPySpace c || c = '-' || c = '.' || c = ','))

/-- `^\-against\-$` with `re.I`. -/
def reAgainst : RE := seqList [chr '-', strCI "against", chr '-']

/-- `^(Respondent|Defendant|Plaintiff),?\s+its\s+(agents|employees)` with
`re.I`. -/
def reRespAgents : RE :=
  seqList [altList [strCI "Respondent", strCI "Defendant", strCI "Plaintiff"],
    ropt (chr ','), rplus reSpace, strCI "its", rplus reSpace,
    altList [strCI "agents", strCI "employees"]]

/-- `^(Plaintiff|Defendant|Petitioner|Respondent|Claimant)\,?\.?$` with
`re.I`. -/
def reCaptionRole : RE :=
  seqList [altList [strCI "Plaintiff", strCI "Defendant", strCI "Petitioner",
    strCI "Respondent", strCI "Claimant"], ropt (chr ','), ropt (chr '.')]

/-- `^In\s+the\s+Matter\s+of\s+the\s+Claim\s+of\s*:?\s*$` with `re.I`. -/
def reMatterFull : RE :=
  seqList [strCI "In", rplus reSpace, strCI "the", rplus reSpace,
    strCI "Matter", rplus reSpace, strCI "of", rplus reSpace, strCI "the",
    rplus reSpace, strCI "Claim", rplus reSpace, strCI "of",
    RE.star reSpace, ropt (chr ':'), RE.star reSpace]

/-- `^In\s+the\s+Matter\s+of\s+` with `re.I`. -/
def reMatterStart : RE :=
  seqList [strCI "In", rplus reSpace, strCI "the", rplus reSpace,
    strCI "Matter", rplus reSpace, strCI "of", rplus reSpace]

/-- `^(STATE|COUNTY)\s+OF\s+[A-Z\s]+\s*\)\s*$` with `re.I`. -/
def reJurat1 : RE :=
  seqList [altList [strCI "STATE", strCI "COUNTY"], rplus reSpace,
    strCI "OF", rplus reSpace,
    rplus (RE.cls (fun c => c.isUpper || c.isLower || isPySpace c)),
    RE.star reSpace, chr ')', RE.star reSpace]

/-- `^[A-Z\s]+\s+\)\s*$` (case-sensitive). -/
def reJurat2 : RE :=
  seqList [rplus (RE.cls (fun c => c.isUpper || isPySpace c)),
    rplus reSpace, chr ')', RE.star reSpace]

/-- `^\d+\.\s+The\s+damages` with `re.I`. -/
def reDamagesNum : RE :=
  seqList [rplus reDigit, chr '.', rplus reSpace, strCI "The",
    rplus reSpace, strCI "damages"]

/-- `^Attached\s+(hereto|herein|herewith)\s+is\s*:?\s*$` with `re.I`. -/
def reAttached : RE :=
  seqList [strCI "Attached", rplus reSpace,
    altList [strCI "hereto", strCI "herein", strCI "herewith"],
    rplus reSpace, strCI "is", RE.star reSpace, ropt (chr ':'),
    RE.star reSpace]

/-- `^[\-\•]\s+`. -/
def reBullet : RE :=
  seqList [RE.cls (fun c => c = '-' || c = '•'), rplus reSpace]

/-- `^Dated\s*:\s*` with `re.I`. -/
def reDated : RE :=
  seqList [strCI "Dated", RE.star reSpace, chr ':', RE.star reSpace]

/-- `^(January|February|...|December)\s+_{2,}` with `re.I`. -/
def reMonthBlank : RE :=
  seqList [altList [strCI "January", strCI "February", strCI "March",
    strCI "April", strCI "May", strCI "June", strCI "July", strCI "August",
    strCI "September", strCI "October", strCI "November", strCI "December"],
    rplus reSpace, atLeast 2 (chr '_')]

/-- `^P:\s*\d|^F:\s*\d|^Fax\s*:` with `re.I`. -/
def rePhone : RE :=
  altList [seqList [chrCI 'P', chr ':', RE.star reSpace, reDigit],
    seqList [chrCI 'F', chr ':', RE.star reSpace, reDigit],
    seqList [strCI "Fax", RE.star reSpace, chr ':']]

/-- `^[\d\-\(\)\s\.]+$`. -/
def rePhoneClass : RE :=
  rplus (RE.cls (fun c =>
    c.isDigit || c = '-' || c = '(' || c = ')' || isPySpace c || c = '.'))

/-- `^\d+\s+[A-Za-z\s]+(Turnpike|Street|Avenue|Boulevard|Road|Drive|Lane),?\s*$`
(case-sensitive). -/
def reAddress1 : RE :=
  seqList [rplus reDigit, rplus reSpace,
    rplus (RE.cls (fun c => c.isUpper || c.isLower || isPySpace c)),
    altList [strRE "Turnpike", strRE "Street", strRE "Avenue",
      strRE "Boulevard", strRE "Road", strRE "Drive", strRE "Lane"],
    ropt (chr ','), RE.star reSpace]

/-- `^[A-Za-z\s]+,\s*(New York|NY)\s+\d{5}` with `re.I`. -/
def reAddress2 : RE :=
  seqList [rplus (RE.cls (fun c => c.isUpper || c.isLower || isPySpace c)),
    chr ',', RE.star reSpace, altList [strCI "New York", strCI "NY"],
    rplus reSpace, nseq 5 reDigit]

/-- The `allegation_starts` tuple (15 anchored patterns, `re.I`). -/
def allegationStarts : List RE :=
  [seqList [strCI "That", rplus reSpace, strCI "on", rplus reSpace],
   seqList [strCI "That", rplus reSpace, strCI "at", rplus reSpace],
   seqList [strCI "That", rplus reSpace, strCI "the", rplus reSpace],
   seqList [strCI "That", rplus reSpace, strCI "defendant"],
   seqList [strCI "By", rplus reSpace, strCI "reason", rplus reSpace,
     strCI "of", rplus reSpace],
   seqList [strCI "As", rplus reSpace, strCI "a", rplus reSpace,
     strCI "result", rplus reSpace],
   seqList [strCI "At", rplus reSpace, strCI "all", rplus reSpace,
     strCI "times", rplus reSpace],
   seqList [strCI "Plaintiff", rplus reSpace, strCI "repeats"],
   seqList [strCI "Upon", rplus reSpace, strCI "information"],
   seqList [strCI "It", rplus reSpace, strCI "is", rplus reSpace,
     strCI "alleged", rplus reSpace, strCI "that", rplus reSpace],
   seqList [strCI "Respondent", ropt (chr ','), rplus reSpace, strCI "its",
     rplus reSpace, strCI "agents"],
   seqList [strCI "All", rplus reSpace, strCI "respondent", rplus reSpace,
     strCI "had", rplus reSpace],
   seqList [strCI "management", ropt (chr ','), rplus reSpace,
     strCI "maintenance"],
   seqList [strCI "The", rplus reSpace, strCI "injuries", rplus reSpace,
     strCI "sustained"],
   seqList [strCI "Due", rplus reSpace, strCI "to", rplus reSpace,
     strCI "the", rplus reSpace,
     altList [strCI "dangerous", strCI "negligent"]]]

/-- `^\d+[\.\)]\s+` (numbered paragraph). -/
def reNumbered : RE :=
  seqList [rplus reDigit, RE.cls (fun c => c = '.' || c = ')'),
    rplus reSpace]

/-- `^[\s_\-]+$`. -/
def reSigMix : RE :=
  rplus (RE.cls (fun c => isPySpace c || c = '_' || c = '-'))

/-- `^_{10,}$`. -/
def reSigUnderscores : RE := atLeast 10 (chr '_')

/-- `^[\s_]{15,}$`. -/
def reSigWide : RE :=
  atLeast 15 (RE.cls (fun c => isPySpace c || c = '_'))

/-- `^[A-Z][a-z]+ [A-Z][a-z]+,?\s+an?\s+attorney` with `re.I` (under
IGNORECASE both `[A-Z]` and `[a-z]` match any letter). -/
def reNameAttorney : RE :=
  seqList [reAlpha, rplus reAlpha, chr ' ', reAlpha, rplus reAlpha,
    ropt (chr ','), rplus reSpace, chrCI 'a', ropt (chrCI 'n'),
    rplus reSpace, strCI "attorney"]

/-- The `\b(agents|servants|employees|negligent|careless|maintenance|inspection)\b`
word list of the party-caption guard. -/
def agentsWords : List (List Char) :=
  [strL "agents", strL "servants", strL "employees", strL "negligent",
   strL "careless", strL "maintenance", strL "inspection"]

/-- The body of `classify_paragraph` (`section_detector.py`, lines 54-208)
after the initial strip.  The chain is translated rule for rule in source
order; the Python nested-`if` blocks that can fall through (party caption,
document title, section headings) are flattened into one guarded step per
inner `return`, which preserves both order and semantics. -/
def classifyCore (t : List Char) : String :=
  if t = [] then EMPTY
  else if isSeparatorLine t then LINE
  else if reFull reCourtClass t && containsSub (strL "COURT") (pyUpper t) then
    COURT_HEADER
  else if reFull reCourtClass t && (containsSub (strL "COUNTY") (pyUpper t) ||
      containsSub (strL "DISTRICT") (pyUpper t) ||
      containsSub (strL "JURISDICTION") (pyUpper t)) then
    COUNTY_LINE
  else if reFull reAgainst t || pyStrip t = strL "-against-" ||
      (decide (t.length < 20) && containsSub (strL "against") (pyLower t) &&
        decide (2 ≤ t.count '-')) then
    VERSUS_LINE
  else if startsWithList (strL "WHEREFORE") (pyUpper (pyStrip t)) then
    WHEREFORE_CLAUSE
  else if reMatchHere reRespAgents t then LEGAL_ALLEGATION
  else if ([strL "Plaintiff", strL "Defendant", strL "Petitioner",
      strL "Respondent", strL "Claimant"].any (fun w => containsSub w t)) &&
      (endsWithList (strL ",") t || endsWithList (strL ".") t ||
        decide (t.length < 60)) then
    (if reFull reCaptionRole t then CAPTION_ROLE else CAPTION_PARTY)
  else if ([strL "Plaintiff", strL "Defendant", strL "Petitioner",
      strL "Respondent", strL "Claimant"].any (fun w => containsSub w t)) &&
      decide (t.length < 80) && !searchWordsCI agentsWords none t then
    CAPTION_PARTY
  else if pyIsUpper t && decide ((pySplitWS t).length ≤ 12) &&
      decide (t.length < 80) &&
      ([strL "SUMMONS", strL "COMPLAINT", strL "NOTICE OF CLAIM",
        strL "NOTICE OF", strL "VERIFIED", strL "MOTION",
        strL "DEMAND"].any (fun kw => containsSub kw t) ||
        (!endsWithList (strL ".") t && !endsWithList (strL ":") t)) then
    DOC_TITLE
  else if startsWithList (strL "TO:") (pyUpper t) ||
      startsWithList (strL "TO THE ") (pyUpper t) then
    NOTICE_TO_LINE
  else if reFull reMatterFull t ||
      (reMatchHere reMatterStart t && decide (t.length < 60)) then
    MATTER_OF_LINE
  else if containsSub (strL "ss.") t && containsSub (strL ")") t &&
      (containsSub (strL "STATE OF") (pyUpper t) ||
        containsSub (strL "COUNTY OF") (pyUpper t)) then
    NOTICE_JURAT_BLOCK
  else if reFull reJurat1 t || (reFull reJurat2 t &&
      (containsSub (strL "STATE") (pyUpper t) ||
        containsSub (strL "COUNTY") (pyUpper t))) then
    NOTICE_JURAT_BLOCK
  else if containsSub (strL "TOTAL DAMAGES ALLEGED") (pyUpper t) ||
      (containsSub (strL "DAMAGES") (pyUpper t) &&
        containsSub (strL "INJURIES SUSTAINED") (pyUpper t) &&
        endsWithList (strL ":") (pyStrip t)) then
    DAMAGES_HEADING
  else if reMatchHere reDamagesNum t then DAMAGES_HEADING
  else if startsWithList
        (strL "the name and post-office address of the claimant")
        (pyLower (pyStrip (dropNumPrefix t))) ||
      startsWithList (strL "the nature of the claim")
        (pyLower (pyStrip (dropNumPrefix t))) ||
      startsWithList
        (strL "the time when, the place where and the manner in which the claim arose")
        (pyLower (pyStrip (dropNumPrefix t))) ||
      startsWithList (strL "the damages, and injuries sustained")
        (pyLower (pyStrip (dropNumPrefix t))) then
    NUMBERED_PARAGRAPH
  else if reFull reAttached t || (endsWithList (strL ":") (pyStrip t) &&
      containsSub (strL "attached") (pyLower t) &&
      decide (t.length < 50)) then
    LIST_INTRO
  else if reMatchHere reBullet t || (startsWithList (strL "-") (pyStrip t) &&
      decide (2 < (pyStrip t).length)) then
    BULLET_ITEM
  else if reMatchHere reDated t || reMatchHere reMonthBlank t then
    DATING_LINE
  else if reMatchHere rePhone t || (decide (t.length < 50) &&
      reFull rePhoneClass t && (containsSub (strL "212-") t ||
        containsSub (strL "516-") t || containsSub (strL "Tel") t)) then
    PHONE_FAX_LINE
  else if containsSub (strL "@") t &&
      (containsSub (strL "email") (pyLower t) ||
        containsSub (strL ".com") (pyLower t) ||
        containsSub (strL ".org") (pyLower t)) then
    EMAIL_LINE
  else if reFull reAddress1 t || reMatchHere reAddress2 t then
    BODY_PARAGRAPH
  else if pyIsUpper t && decide (t.length < 60) &&
      (containsSub (strL ",") t || containsSub (strL "LLC") t ||
        containsSub (strL "P.C.") t || containsSub (strL "PLLC") t) &&
      !endsWithList (strL ":") t then
    FIRM_BLOCK_LINE
  else if pyIsUpper t && decide ((pySplitWS t).length ≤ 15) &&
      (containsSub (strL "CAUSE OF ACTION") t ||
        containsSub (strL "AS AND FOR") t) then
    CAUSE_OF_ACTION_HEADING
  else if pyIsUpper t && decide ((pySplitWS t).length ≤ 15) &&
      (containsSub (strL "VERIFICATION") t ||
        containsSub (strL "AFFIDAVIT") t || containsSub (strL "JURAT") t) then
    VERIFICATION_HEADING
  else if pyIsUpper t && decide ((pySplitWS t).length ≤ 15) &&
      !endsWithList (strL ".") t &&
      (endsWithList (strL ":") t || decide (t.length < 50)) then
    SECTION_HEADING
  else if pyIsUpper t && decide ((pySplitWS t).length ≤ 5) &&
      decide (t.length < 40) && !endsWithList (strL ".") t then
    CAUSE_OF_ACTION_TITLE
  else if allegationStarts.any (fun r => reMatchHere r t) then
    LEGAL_ALLEGATION
  else if reMatchHere reNumbered t then NUMBERED_PARAGRAPH
  else if reFull reSigMix t && decide (5 < t.length) then SIGNATURE_LINE
  else if containsSub (strL "ESQ") (pyUpper t) ||
      containsSub (strL "ESQ.") (pyUpper t) then
    SIGNATURE_BLOCK
  else if containsSub (strL "ATTORNEYS FOR") (pyUpper t) ||
      containsSub (strL "ATTORNEY FOR") (pyUpper t) then
    SIGNATURE_BLOCK
  else if reFull reSigUnderscores t || reFull reSigWide t then SIGNATURE_LINE
  else if containsSub (strL "under penalty") (pyLower t) ||
      containsSub (strL "penalties of perjury") (pyLower t) ||
      containsSub (strL "duly sworn") (pyLower t) then
    VERIFICATION_BODY
  else if reMatchHere reNameAttorney t then VERIFICATION_BODY
  else if containsSub (strL "you are hereby summoned") (pyLower t) ||
      containsSub (strL "you are hereby directed") (pyLower t) then
    SUMMONS_BODY
  else BODY_PARAGRAPH

/-- `classify_paragraph(text)` from `section_detector.py`. -/
def classify_paragraph (text : List Char) : String :=
  classifyCore (pyStrip text)

/-! ### Mapper lemmas -/

theorem mapGo_length_fst (draft : List DraftBlock) :
    ∀ (slots : List Slot) (consumed : List Bool) (idx : Nat),
      (mapGo draft slots consumed idx).1.length = slots.length := by
  intro slots
  induction slots with
  | nil => intro consumed idx; rfl
  | cons slot rest ih =>
    intro consumed idx
    simp [mapGo, ih]

theorem mapGo_length_snd (draft : List DraftBlock) :
    ∀ (slots : List Slot) (consumed : List Bool) (idx : Nat),
      (mapGo draft slots consumed idx).2.length = slots.length := by
  intro slots
  induction slots with
  | nil => intro consumed idx; rfl
  | cons slot rest ih =>
    intro consumed idx
    simp [mapGo, ih]

theorem firstFree_spec (p : DraftBlock → Bool) :
    ∀ (ds : List DraftBlock) (cs : List Bool) (j : Nat),
      firstFree p ds cs = some j → cs.getD j true = false := by
  intro ds
  induction ds with
  | nil => intro cs j h; simp [firstFree] at h
  | cons d ds ih =>
    intro cs j h
    cases cs with
    | nil => simp [firstFree] at h
    | cons c cs =>
      simp only [firstFree] at h
      by_cases hc : (!c && p d) = true
      · rw [if_pos hc] at h
        cases h
        simp at hc
        simpa [List.getD] using hc.1
      · rw [if_neg hc] at h
        rcases Option.map_eq_some'.mp h with ⟨j', hj', rfl⟩
        simpa [List.getD] using ih cs j' hj'

/-- Small helper: `getD` after `set` at the same (in-range) position. -/
theorem getD_set_self : ∀ (l : List Bool) (j : Nat), l.getD j true = false →
    (l.set j true).getD j true = true := by
  intro l
  induction l with
  | nil => intro j h; simp [List.getD] at h
  | cons a l ih =>
    intro j h
    cases j with
    | zero => simp [List.getD]
    | succ j => simpa [List.getD] using ih j (by simpa [List.getD] using h)

/-- Small helper: `getD` after `set` at a different position. -/
theorem getD_set_ne : ∀ (l : List Bool) (i j : Nat), i ≠ j →
    (l.set i true).getD j true = l.getD j true := by
  intro l
  induction l with
  | nil => intro i j _; simp
  | cons a l ih =>
    intro i j hij
    cases i with
    | zero =>
      cases j with
      | zero => exact absurd rfl hij
      | succ j => simp [List.getD]
    | succ i =>
      cases j with
      | zero => simp [List.getD]
      | succ j =>
        simpa [List.getD] using ih i j (fun h => hij (by rw [h]))

/-- Every index produced by `mapChoose` was unconsumed. -/
theorem mapChoose_spec (draft : List DraftBlock) (consumed : List Bool)
    (tt : String) (j : Nat) (h : mapChoose draft consumed tt = some j) :
    consumed.getD j true = false := by
  unfold mapChoose at h
  simp only at h
  by_cases h1 :
      (if (firstFree (fun d => d.section_type == tt) draft consumed) = none
          && tt == "body" then
        firstFree (fun _ => true) draft consumed
      else firstFree (fun d => d.section_type == tt) draft consumed) = none
  · rw [if_pos h1] at h
    exact firstFree_spec _ draft consumed j h
  · rw [if_neg h1] at h
    by_cases h0 : ((firstFree (fun d => d.section_type == tt) draft consumed)
        = none && tt == "body") = true
    · rw [if_pos h0] at h
      exact firstFree_spec _ draft consumed j h
    · rw [if_neg h0] at h
      exact firstFree_spec _ draft consumed j h

/-- Unfolding equation for `mapStep` when a block is chosen. -/
theorem mapStep_some (draft : List DraftBlock) (consumed : List Bool)
    (slot_idx : Nat) (slot : Slot) (j : Nat)
    (h : mapChoose draft consumed slot.section_type = some j) :
    mapStep draft consumed slot_idx slot =
    ((if slot.block_kind == "signature_line" then
        ("signature_line", (draft.getD j default).text)
      else if slot.block_kind == "line" then
        ("line", (draft.getD j default).text)
      else if slot.block_kind == "section_underline" then
        ("section_underline", "")
      else ((draft.getD j default).block_type, (draft.getD j default).text)),
     { slot_index := slot_idx
       template_type := slot.section_type
       draft_index := some j
       match_status :=
         if (draft.getD j default).section_type == slot.section_type then "ok"
         else "mapped"
       note := "draft block " ++ toString j ++ " (" ++
         (draft.getD j default).section_type ++ ") -> slot " ++
         toString slot_idx ++ " (" ++ slot.section_type ++ ")" },
     consumed.set j true) := by
  unfold mapStep
  rw [h]

/-- Unfolding equation for `mapStep` when no block remains. -/
theorem mapStep_none (draft : List DraftBlock) (consumed : List Bool)
    (slot_idx : Nat) (slot : Slot)
    (h : mapChoose draft consumed slot.section_type = none) :
    mapStep draft consumed slot_idx slot =
    ((if slot.block_kind == "section_underline" then ("section_underline", "")
      else if slot.block_kind == "line" then ("line", "")
      else if slot.block_kind == "signature_line" then ("signature_line", "")
      else (slot.style, "")),
     { slot_index := slot_idx
       template_type := slot.section_type
       draft_index := none
       match_status := "empty"
       note := "no draft block for slot " ++ toString slot_idx ++ " (" ++
         slot.section_type ++ ")" },
     consumed) := by
  unfold mapStep
  rw [h]

/-- Consumption invariant of the slot loop: every draft index recorded in the
report was unconsumed at entry, and no index is recorded twice. -/
theorem mapGo_no_reuse (draft : List DraftBlock) :
    ∀ (slots : List Slot) (consumed : List Bool) (idx : Nat),
      (∀ j ∈ ((mapGo draft slots consumed idx).2.filterMap
          (fun r => r.draft_index)), consumed.getD j true = false) ∧
      ((mapGo draft slots consumed idx).2.filterMap
          (fun r => r.draft_index)).Nodup := by
  intro slots
  induction slots with
  | nil => intro consumed idx; simp [mapGo]
  | cons slot rest ih =>
    intro consumed idx
    simp only [mapGo]
    have hcases :
        ((mapStep draft consumed idx slot).2.1.draft_index = none ∧
          (mapStep draft consumed idx slot).2.2 = consumed) ∨
        (∃ j, (mapStep draft consumed idx slot).2.1.draft_index = some j ∧
          consumed.getD j true = false ∧
          (mapStep draft consumed idx slot).2.2 = consumed.set j true) := by
      cases hcv : mapChoose draft consumed slot.section_type with
      | none =>
        left
        rw [mapStep_none draft consumed idx slot hcv]
        exact ⟨rfl, rfl⟩
      | some j =>
        right
        rw [mapStep_some draft consumed idx slot j hcv]
        exact ⟨j, rfl, mapChoose_spec draft consumed _ j hcv, rfl⟩
    rcases hcases with ⟨hnone, hsame⟩ | ⟨j, hsome, hfree, hset⟩
    · rw [hsame]
      simp only [List.filterMap_cons, hnone]
      exact ih consumed (idx + 1)
    · have ihs := ih (consumed.set j true) (idx + 1)
      rw [hset]
      simp only [List.filterMap_cons, hsome]
      constructor
      · intro j' hj'
        rcases List.mem_cons.mp hj' with rfl | hj'
        · exact hfree
        · have h1 := ihs.1 j' hj'
          have hne : j ≠ j' := by
            intro h
            rw [← h] at h1
            rw [getD_set_self consumed j hfree] at h1
            simp at h1
          rw [getD_set_ne consumed j j' hne] at h1
          exact h1
      · refine List.nodup_cons.mpr ⟨?_, ihs.2⟩
        intro hmem
        have h1 := ihs.1 j hmem
        rw [getD_set_self consumed j hfree] at h1
        simp at h1

/-- Behaviour of one slot step when a draft block was consumed:
status is `ok` or `mapped`, and the emitted pair follows the slot's
`block_kind` (`section_underline` drops the text; `line`/`signature_line`
keep it under the structural type). -/
theorem mapStep_consumed (draft : List DraftBlock) (consumed : List Bool)
    (idx : Nat) (slot : Slot) (j : Nat)
    (h : (mapStep draft consumed idx slot).2.1.draft_index = some j) :
    ((mapStep draft consumed idx slot).2.1.match_status = "ok" ∨
      (mapStep draft consumed idx slot).2.1.match_status = "mapped") ∧
    (slot.block_kind = "section_underline" →
      (mapStep draft consumed idx slot).1 = ("section_underline", "")) ∧
    (slot.block_kind = "line" →
      (mapStep draft consumed idx slot).1 = ("line", (draft.getD j default).text)) ∧
    (slot.block_kind = "signature_line" →
      (mapStep draft consumed idx slot).1 =
        ("signature_line", (draft.getD j default).text)) := by
  cases hcv : mapChoose draft consumed slot.section_type with
  | none =>
    rw [mapStep_none draft consumed idx slot hcv] at h
    simp at h
  | some j' =>
    rw [mapStep_some draft consumed idx slot j' hcv] at h ⊢
    have hj : j' = j := by simpa using h
    subst hj
    refine ⟨?_, ?_, ?_, ?_⟩
    · by_cases hs : ((draft.getD j' default).section_type ==
        slot.section_type) = true
      · left; simp only [hs, if_true]
      · right; simp only [hs, if_false, Bool.false_eq_true]
    · intro hk
      simp [hk]
    · intro hk
      simp [hk]
    · intro hk
      simp [hk]

/-- Positional form: element `i` of the mapper output is produced by a single
`mapStep` call at some intermediate consumed state. -/
theorem mapGo_getD (draft : List DraftBlock) :
    ∀ (slots : List Slot) (consumed : List Bool) (idx : Nat) (i : Nat),
      i < slots.length →
      ∃ c', (mapGo draft slots consumed idx).1.getD i default =
            (mapStep draft c' (idx + i) (slots.getD i default)).1 ∧
          (mapGo draft slots consumed idx).2.getD i default =
            (mapStep draft c' (idx + i) (slots.getD i default)).2.1 := by
  intro slots
  induction slots with
  | nil => intro consumed idx i h; simp at h
  | cons slot rest ih =>
    intro consumed idx i h
    cases i with
    | zero =>
      refine ⟨consumed, ?_, ?_⟩ <;> simp [mapGo, List.getD]
    | succ i =>
      have hi : i < rest.length := Nat.lt_of_succ_lt_succ h
      rcases ih (mapStep draft consumed idx slot).2.2 (idx + 1) i hi with
        ⟨c', h1, h2⟩
      have hidx : idx + 1 + i = idx + (i + 1) := by omega
      rw [hidx] at h1 h2
      refine ⟨c', ?_, ?_⟩
      · simpa [mapGo, List.getD] using h1
      · simpa [mapGo, List.getD] using h2

/-! ### Claim theorems for the mapper -/

/-- Claim C1: for every template slot list of length N and every draft block
list (of any length M ≥ 0), `map_draft_to_template` returns exactly N mapped
entries and exactly N mapping records; running out of draft blocks yields
empty/structural-default entries (the function is total) instead of raising. -/
theorem claim_C1 (draft : List DraftBlock) (slots : List Slot) :
    (map_draft_to_template draft slots).1.length = slots.length ∧
    (map_draft_to_template draft slots).2.length = slots.length :=
  ⟨mapGo_length_fst draft slots _ 0, mapGo_length_snd draft slots _ 0⟩

/-- Claim C2: in every result of `map_draft_to_template`, no draft block index
appears in more than one `MapRecord.draft_index` — the list of recorded
indices has no duplicates. -/
theorem claim_C2 (draft : List DraftBlock) (slots : List Slot) :
    ((map_draft_to_template draft slots).2.filterMap
      (fun r => r.draft_index)).Nodup :=
  (mapGo_no_reuse draft slots _ 0).2

/-- Claim C3: for template slots typed
`[court_header, caption_party, body, numbered, signature_line]` and three
draft blocks of section type `body`, the mapper assigns slot 0 ← block 0
(`mapped`), slot 1 ← block 1 (`mapped`), slot 2 ← block 2 (`ok`), and slots
3 and 4 are `empty` with no draft index. -/
theorem claim_C3 :
    ((map_draft_to_template
        [⟨"body_paragraph", "A", "body"⟩, ⟨"body_paragraph", "B", "body"⟩,
         ⟨"body_paragraph", "C", "body"⟩]
        [⟨"court_header", "paragraph", "Normal"⟩,
         ⟨"caption_party", "paragraph", "Normal"⟩,
         ⟨"body", "paragraph", "Normal"⟩,
         ⟨"numbered", "paragraph", "Normal"⟩,
         ⟨"signature_line", "paragraph", "Normal"⟩]).2.map
      (fun r => (r.slot_index, r.draft_index, r.match_status))) =
    [(0, some 0, "mapped"), (1, some 1, "mapped"), (2, some 2, "ok"),
     (3, none, "empty"), (4, none, "empty")] := by
  decide

/-- Claim C10: whenever `map_draft_to_template` consumes a draft block into a
slot whose `block_kind` is `section_underline`, the mapped entry is
`("section_underline", "")` — the consumed block's text is discarded even
though the record reports the block as consumed with status `ok`/`mapped`;
for `line` and `signature_line` slots the text is kept but the block type is
replaced by the template's structural kind. -/
theorem claim_C10 (draft : List DraftBlock) (slots : List Slot) (i j : Nat)
    (h : ((map_draft_to_template draft slots).2.getD i default).draft_index =
      some j) :
    (((map_draft_to_template draft slots).2.getD i default).match_status =
        "ok" ∨
      ((map_draft_to_template draft slots).2.getD i default).match_status =
        "mapped") ∧
    ((slots.getD i default).block_kind = "section_underline" →
      (map_draft_to_template draft slots).1.getD i default =
        ("section_underline", "")) ∧
    ((slots.getD i default).block_kind = "line" →
      (map_draft_to_template draft slots).1.getD i default =
        ("line", (draft.getD j default).text)) ∧
    ((slots.getD i default).block_kind = "signature_line" →
      (map_draft_to_template draft slots).1.getD i default =
        ("signature_line", (draft.getD j default).text)) := by
  by_cases hi : i < slots.length
  · rcases mapGo_getD draft slots (List.replicate draft.length false) 0 i hi
      with ⟨c', h1, h2⟩
    unfold map_draft_to_template at h ⊢
    rw [h2] at h
    rw [h1, h2]
    exact mapStep_consumed draft c' (0 + i) (slots.getD i default) j h
  · have hlen : (map_draft_to_template draft slots).2.length ≤ i := by
      rw [map_draft_to_template, mapGo_length_snd]
      omega
    rw [List.getD_eq_default _ _ hlen] at h
    have hd : (default : MapRecord).draft_index = none := rfl
    rw [hd] at h
    cases h

/-- Witness for claim C10: a concrete `section_underline` slot consuming a
draft block with text `"hello"` yields the pair `("section_underline", "")`. -/
theorem claim_C10_witness :
    (((map_draft_to_template [⟨"body_paragraph", "hello", "body"⟩]
        [⟨"body", "section_underline", "Normal"⟩]).2.getD 0
          default).draft_index = some 0) ∧
    (map_draft_to_template [⟨"body_paragraph", "hello", "body"⟩]
        [⟨"body", "section_underline", "Normal"⟩]).1.getD 0 default =
      ("section_underline", "") :=
  ⟨by decide,
   (claim_C10 [⟨"body_paragraph", "hello", "body"⟩]
      [⟨"body", "section_underline", "Normal"⟩] 0 0 (by decide)).2.1
     (by decide)⟩

/-! ### Inline emphasis parser lemmas -/

/-- The tokenizer never emits `*` as an ordinary character: every `*` is
consumed by a `**` or `*` marker token. -/
theorem tokenizeMarkers_no_star :
    ∀ (s : List Char) (c : Char), MTok.ch c ∈ tokenizeMarkers s → c ≠ '*' := by
  intro s
  induction s using tokenizeMarkers.induct with
  | case1 => intro c h; simp [tokenizeMarkers] at h
  | case2 =>
    intro c h
    simp only [tokenizeMarkers, if_pos rfl] at h
    simp at h
  | case3 c0 hne =>
    intro c h
    simp only [tokenizeMarkers] at h
    rw [if_neg hne] at h
    rcases List.mem_cons.mp h with h | h
    · cases h; exact hne
    · simp at h
  | case4 c1 c2 cs hcond ih =>
    intro c h
    simp only [tokenizeMarkers] at h
    rw [if_pos hcond] at h
    rcases List.mem_cons.mp h with h | h
    · cases h
    · exact ih c h
  | case5 c1 c2 cs hc1 hcond ih =>
    intro c h
    simp only [tokenizeMarkers] at h
    rw [if_neg (by simp [hc1]), if_pos hcond] at h
    rcases List.mem_cons.mp h with h | h
    · cases h
    · exact ih c h
  | case6 c2 cs hc1 hc2 ih =>
    intro c h
    simp only [tokenizeMarkers] at h
    rw [if_neg (by simpa using hc1), if_neg (by simpa using hc2)] at h
    simp only [if_pos trivial] at h
    rcases List.mem_cons.mp h with h | h
    · cases h
    · exact ih c h
  | case7 c1 c2 cs hc1 hc2 hstar ih =>
    intro c h
    simp only [tokenizeMarkers] at h
    rw [if_neg (by simpa using hc1), if_neg (by simpa using hc2),
      if_neg hstar] at h
    rcases List.mem_cons.mp h with h | h
    · cases h; exact hstar
    · exact ih c h

/-- Every character of a text piece produced by the grouping pass comes from
an ordinary-character token of the input (or from the pending run `acc`). -/
theorem groupGo_txt_mem :
    ∀ (ts : List MTok) (acc : List Char) (s : List Char),
      Piece.txt s ∈ groupGo ts acc →
      ∀ c ∈ s, MTok.ch c ∈ ts ∨ c ∈ acc := by
  intro ts
  induction ts with
  | nil =>
    intro acc s h c hc
    by_cases ha : acc = []
    · simp [groupGo, ha] at h
    · simp only [groupGo, if_neg ha] at h
      rcases List.mem_singleton.mp h with h
      cases h
      right
      exact List.mem_reverse.mp hc
  | cons t ts ih =>
    intro acc s h c hc
    cases t with
    | bb =>
      simp only [groupGo] at h
      rcases List.mem_append.mp h with h | h
      · by_cases ha : acc = []
        · simp [ha] at h
        · rw [if_neg ha] at h
          rcases List.mem_singleton.mp h with h
          cases h
          right
          exact List.mem_reverse.mp hc
      · rcases List.mem_cons.mp h with h | h
        · cases h
        · rcases ih [] s h c hc with h' | h'
          · exact Or.inl (List.mem_cons_of_mem _ h')
          · simp at h'
    | uu =>
      simp only [groupGo] at h
      rcases List.mem_append.mp h with h | h
      · by_cases ha : acc = []
        · simp [ha] at h
        · rw [if_neg ha] at h
          rcases List.mem_singleton.mp h with h
          cases h
          right
          exact List.mem_reverse.mp hc
      · rcases List.mem_cons.mp h with h | h
        · cases h
        · rcases ih [] s h c hc with h' | h'
          · exact Or.inl (List.mem_cons_of_mem _ h')
          · simp at h'
    | it =>
      simp only [groupGo] at h
      rcases List.mem_append.mp h with h | h
      · by_cases ha : acc = []
        · simp [ha] at h
        · rw [if_neg ha] at h
          rcases List.mem_singleton.mp h with h
          cases h
          right
          exact List.mem_reverse.mp hc
      · rcases List.mem_cons.mp h with h | h
        · cases h
        · rcases ih [] s h c hc with h' | h'
          · exact Or.inl (List.mem_cons_of_mem _ h')
          · simp at h'
    | ch c0 =>
      simp only [groupGo] at h
      rcases ih (c0 :: acc) s h c hc with h' | h'
      · exact Or.inl (List.mem_cons_of_mem _ h')
      · rcases List.mem_cons.mp h' with rfl | h'
        · exact Or.inl (List.mem_cons_self _ _)
        · exact Or.inr h'

/-- Every segment's text produced by the flag loop is a text piece of the
input piece list. -/
theorem segsFromPieces_mem :
    ∀ (ps : List Piece) (b i u : Bool) (seg : Seg),
      seg ∈ segsFromPieces ps b i u → Piece.txt seg.text ∈ ps := by
  intro ps
  induction ps with
  | nil => intro b i u seg h; simp [segsFromPieces] at h
  | cons p ps ih =>
    intro b i u seg h
    cases p with
    | bb => exact List.mem_cons_of_mem _ (ih _ _ _ seg h)
    | uu => exact List.mem_cons_of_mem _ (ih _ _ _ seg h)
    | it => exact List.mem_cons_of_mem _ (ih _ _ _ seg h)
    | txt s =>
      simp only [segsFromPieces] at h
      rcases List.mem_cons.mp h with rfl | h
      · exact List.mem_cons_self _ _
      · exact List.mem_cons_of_mem _ (ih _ _ _ seg h)

theorem band_true_left {a b : Bool} (h : (a && b) = true) : a = true := by
  rw [Bool.and_eq_true] at h
  exact h.1

theorem band_true_right {a b : Bool} (h : (a && b) = true) : b = true := by
  rw [Bool.and_eq_true] at h
  exact h.2

/-- The tail of a pairwise-adjacency-clean token list is clean. -/
theorem tokNoAdjUU_tail (t : MTok) (ts : List MTok)
    (h : tokNoAdjUU (t :: ts) = true) : tokNoAdjUU ts = true := by
  cases ts with
  | nil => rfl
  | cons t2 ts' => exact band_true_right h

/-- The tail of an underscore-pair-free character list is free too. -/
theorem noAdjUU_tail (c : Char) (cs : List Char)
    (h : noAdjUU (c :: cs) = true) : noAdjUU cs = true := by
  cases cs with
  | nil => rfl
  | cons c2 cs' => exact band_true_right h

/-- Appending one character keeps a list underscore-pair-free as long as the
new boundary pair is allowed. -/
theorem noAdjUU_append_one :
    ∀ (l : List Char) (c : Char), noAdjUU l = true →
      (∀ d, l.getLast? = some d → charPairOk d c = true) →
      noAdjUU (l ++ [c]) = true := by
  intro l
  induction l with
  | nil => intro c _ _; rfl
  | cons d l' ih =>
    intro c hl hb
    cases l' with
    | nil =>
      have hdc : charPairOk d c = true := hb d rfl
      simp only [List.cons_append, List.nil_append, noAdjUU, hdc,
        Bool.true_and]
    | cons e l'' =>
      have hde : charPairOk d e = true := band_true_left hl
      have htl : noAdjUU ((e :: l'') ++ [c]) = true :=
        ih c (noAdjUU_tail d (e :: l'') hl)
          (fun d' hd' => hb d' (by rw [← hd']; rfl))
      simp only [List.cons_append] at htl ⊢
      simp only [noAdjUU, hde, Bool.true_and]
      exact htl

/-- An underscore-pair-free list never contains `__` as a substring. -/
theorem noAdjUU_no_contains :
    ∀ (l : List Char), noAdjUU l = true →
      containsSub (strL "__") l = false := by
  intro l
  induction l with
  | nil => intro _; rfl
  | cons c cs ih =>
    intro h
    have htl : containsSub (strL "__") cs = false := ih (noAdjUU_tail c cs h)
    have hhd : listPrefixOf (strL "__") (c :: cs) = false := by
      by_cases hc : c = '_'
      · subst hc
        cases cs with
        | nil => rfl
        | cons c2 cs' =>
          by_cases hc2 : c2 = '_'
          · subst hc2
            have hpair : (charPairOk '_' '_' &&
                noAdjUU ('_' :: cs')) = true := h
            have := band_true_left hpair
            simp [charPairOk] at this
          · have hd2 : decide ('_' = c2) = false := by
              rw [decide_eq_false_iff_not]
              exact fun hx => hc2 hx.symm
            show (decide ('_' = '_') &&
              (decide ('_' = c2) && listPrefixOf [] cs')) = false
            rw [hd2]
            simp
      · have hd1 : decide ('_' = c) = false := by
          rw [decide_eq_false_iff_not]
          exact fun hx => hc hx.symm
        show (decide ('_' = c) && listPrefixOf ['_'] cs) = false
        rw [hd1]
        simp
    have hu : containsSub (strL "__") (c :: cs) =
        (listPrefixOf (strL "__") (c :: cs) ||
          containsSub (strL "__") cs) := rfl
    rw [hu, hhd, htl]
    rfl

/-- If the tokenizer emits an ordinary-character token first, it carries the
first character of the input. -/
theorem tokenizeMarkers_head_ch :
    ∀ (s : List Char) (d : Char) (rest : List MTok),
      tokenizeMarkers s = MTok.ch d :: rest → s.head? = some d := by
  intro s
  induction s using tokenizeMarkers.induct with
  | case1 => intro d rest h; simp [tokenizeMarkers] at h
  | case2 =>
    intro d rest h
    simp only [tokenizeMarkers, if_pos rfl] at h
    cases h
  | case3 c0 hne =>
    intro d rest h
    simp only [tokenizeMarkers] at h
    rw [if_neg hne] at h
    cases h
    rfl
  | case4 c1 c2 cs hcond ih =>
    intro d rest h
    simp only [tokenizeMarkers] at h
    rw [if_pos hcond] at h
    cases h
  | case5 c1 c2 cs hc1 hcond ih =>
    intro d rest h
    simp only [tokenizeMarkers] at h
    rw [if_neg (by simpa using hc1), if_pos hcond] at h
    cases h
  | case6 c2 cs hc1 hc2 ih =>
    intro d rest h
    simp only [tokenizeMarkers] at h
    rw [if_neg (by simpa using hc1), if_neg (by simpa using hc2)] at h
    simp only [if_pos trivial] at h
    cases h
  | case7 c1 c2 cs hc1 hc2 hstar ih =>
    intro d rest h
    simp only [tokenizeMarkers] at h
    rw [if_neg (by simpa using hc1), if_neg (by simpa using hc2),
      if_neg hstar] at h
    cases h
    rfl

/-- The tokenizer never leaves two adjacent `_` characters as ordinary
tokens: any input `__` pair becomes a `uu` marker token. -/
theorem tokenizeMarkers_noAdjUU :
    ∀ (s : List Char), tokNoAdjUU (tokenizeMarkers s) = true := by
  intro s
  induction s using tokenizeMarkers.induct with
  | case1 => rfl
  | case2 => simp only [tokenizeMarkers, if_pos rfl]; rfl
  | case3 c0 hne =>
    simp only [tokenizeMarkers]
    rw [if_neg hne]
    rfl
  | case4 c1 c2 cs hcond ih =>
    simp only [tokenizeMarkers]
    rw [if_pos hcond]
    cases hr : tokenizeMarkers cs with
    | nil => rfl
    | cons t rest =>
      rw [hr] at ih
      show (tokPairOk MTok.bb t && tokNoAdjUU (t :: rest)) = true
      rw [ih]
      cases t <;> rfl
  | case5 c1 c2 cs hc1 hcond ih =>
    simp only [tokenizeMarkers]
    rw [if_neg (by simpa using hc1), if_pos hcond]
    cases hr : tokenizeMarkers cs with
    | nil => rfl
    | cons t rest =>
      rw [hr] at ih
      show (tokPairOk MTok.uu t && tokNoAdjUU (t :: rest)) = true
      rw [ih]
      cases t <;> rfl
  | case6 c2 cs hc1 hc2 ih =>
    simp only [tokenizeMarkers]
    rw [if_neg (by simpa using hc1), if_neg (by simpa using hc2)]
    simp only [if_pos trivial]
    cases hr : tokenizeMarkers (c2 :: cs) with
    | nil => rfl
    | cons t rest =>
      rw [hr] at ih
      show (tokPairOk MTok.it t && tokNoAdjUU (t :: rest)) = true
      rw [ih]
      cases t <;> rfl
  | case7 c1 c2 cs hc1 hc2 hstar ih =>
    simp only [tokenizeMarkers]
    rw [if_neg (by simpa using hc1), if_neg (by simpa using hc2),
      if_neg hstar]
    cases hr : tokenizeMarkers (c2 :: cs) with
    | nil => rfl
    | cons t rest =>
      rw [hr] at ih
      show (tokPairOk (MTok.ch c1) t && tokNoAdjUU (t :: rest)) = true
      rw [ih]
      cases t with
      | bb => rfl
      | uu => rfl
      | it => rfl
      | ch d =>
        have hd : d = c2 := by
          have h2 := tokenizeMarkers_head_ch (c2 :: cs) d rest hr
          simp only [List.head?_cons, Option.some.injEq] at h2
          exact h2.symm
        have hpair : charPairOk c1 c2 = true := by
          have hx : (decide (c1 = '_') && decide (c2 = '_')) = false :=
            Bool.eq_false_iff.mpr hc2
          simp only [charPairOk, hx]
          rfl
        rw [hd]
        show (charPairOk c1 c2 && true) = true
        rw [hpair]
        rfl

/-- Every text piece produced by the grouping pass over an
underscore-pair-free token list is itself underscore-pair-free (the running
accumulator is stored reversed; its boundary with the upcoming token is
tracked explicitly). -/
theorem groupGo_txt_noAdj :
    ∀ (ts : List MTok) (acc : List Char),
      tokNoAdjUU ts = true →
      (∀ a c, acc.head? = some a → ts.head? = some (MTok.ch c) →
        charPairOk a c = true) →
      noAdjUU acc.reverse = true →
      ∀ s, Piece.txt s ∈ groupGo ts acc → noAdjUU s = true := by
  intro ts
  induction ts with
  | nil =>
    intro acc _ _ hacc s hs
    by_cases ha : acc = []
    · simp [groupGo, ha] at hs
    · simp only [groupGo, if_neg ha] at hs
      rcases List.mem_singleton.mp hs with hs
      cases hs
      exact hacc
  | cons t ts' ih =>
    intro acc htok hbound hacc s hs
    cases t with
    | bb =>
      simp only [groupGo] at hs
      rcases List.mem_append.mp hs with hs | hs
      · by_cases ha : acc = []
        · simp [ha] at hs
        · rw [if_neg ha] at hs
          rcases List.mem_singleton.mp hs with hs
          cases hs
          exact hacc
      · rcases List.mem_cons.mp hs with hs | hs
        · cases hs
        · exact ih [] (tokNoAdjUU_tail _ _ htok)
            (fun a c ha _ => by cases ha) rfl s hs
    | uu =>
      simp only [groupGo] at hs
      rcases List.mem_append.mp hs with hs | hs
      · by_cases ha : acc = []
        · simp [ha] at hs
        · rw [if_neg ha] at hs
          rcases List.mem_singleton.mp hs with hs
          cases hs
          exact hacc
      · rcases List.mem_cons.mp hs with hs | hs
        · cases hs
        · exact ih [] (tokNoAdjUU_tail _ _ htok)
            (fun a c ha _ => by cases ha) rfl s hs
    | it =>
      simp only [groupGo] at hs
      rcases List.mem_append.mp hs with hs | hs
      · by_cases ha : acc = []
        · simp [ha] at hs
        · rw [if_neg ha] at hs
          rcases List.mem_singleton.mp hs with hs
          cases hs
          exact hacc
      · rcases List.mem_cons.mp hs with hs | hs
        · cases hs
        · exact ih [] (tokNoAdjUU_tail _ _ htok)
            (fun a c ha _ => by cases ha) rfl s hs
    | ch c0 =>
      simp only [groupGo] at hs
      refine ih (c0 :: acc) (tokNoAdjUU_tail _ _ htok) ?_ ?_ s hs
      · intro a c2 ha hc2
        simp only [List.head?_cons, Option.some.injEq] at ha
        subst ha
        cases ts' with
        | nil => cases hc2
        | cons t2 ts'' =>
          simp only [List.head?_cons, Option.some.injEq] at hc2
          rw [hc2] at htok
          exact band_true_left htok
      · rw [List.reverse_cons]
        refine noAdjUU_append_one acc.reverse c0 hacc ?_
        intro d hd
        rw [List.getLast?_reverse] at hd
        exact hbound d c0 hd rfl

/-! ### Claim theorems for the inline emphasis parser -/

/-- Claim C8 counterexample: unmatched markers do NOT appear as literal text.
On `"a**b"` the unmatched `**` is consumed as a bold toggle (`b` comes out
bold, no `*` in any segment), and on `"a__b"` the unmatched `__` is consumed
as an underline toggle (`b` comes out underlined, no `__` in any segment). -/
theorem claim_C8_counterexample :
    (parse_inline_formatting_markers ['a', '*', '*', 'b'] =
      [⟨['a'], false, false, false⟩, ⟨['b'], true, false, false⟩] ∧
     ∀ seg ∈ parse_inline_formatting_markers ['a', '*', '*', 'b'],
       '*' ∉ seg.text) ∧
    (parse_inline_formatting_markers ['a', '_', '_', 'b'] =
      [⟨['a'], false, false, false⟩, ⟨['b'], false, false, true⟩] ∧
     ∀ seg ∈ parse_inline_formatting_markers ['a', '_', '_', 'b'],
       containsSub (strL "__") seg.text = false) := by
  decide

/-- Claim C8 (amended): an unmatched emphasis marker (`**`, `__` or `*`) is
consumed as a formatting toggle for the remainder of the text and never
appears as literal text in any output segment — no segment text ever
contains a `*` character or a `__` substring; parsing never fails on
malformed markers — the parser always returns a nonempty segment list. -/
theorem claim_C8 (text : List Char) :
    parse_inline_formatting_markers text ≠ [] ∧
    ∀ seg ∈ parse_inline_formatting_markers text,
      '*' ∉ seg.text ∧ containsSub (strL "__") seg.text = false := by
  unfold parse_inline_formatting_markers
  by_cases h0 : text = []
  · rw [if_pos h0]
    constructor
    · intro h; cases h
    · intro seg hseg
      rcases List.mem_cons.mp hseg with rfl | h
      · exact ⟨(fun h => by cases h), rfl⟩
      · simp at h
  · rw [if_neg h0]
    by_cases h1 : segsFromPieces (groupGo (tokenizeMarkers text) [])
        false false false = []
    · rw [if_pos h1]
      constructor
      · intro h; cases h
      · intro seg hseg
        rcases List.mem_cons.mp hseg with rfl | h
        · exact ⟨(fun h => by cases h), rfl⟩
        · simp at h
    · rw [if_neg h1]
      refine ⟨h1, ?_⟩
      intro seg hseg
      have hp := segsFromPieces_mem _ _ _ _ seg hseg
      constructor
      · intro hstar
        rcases groupGo_txt_mem (tokenizeMarkers text) [] seg.text hp '*'
          hstar with h | h
        · exact tokenizeMarkers_no_star text '*' h rfl
        · simp at h
      · exact noAdjUU_no_contains seg.text
          (groupGo_txt_noAdj (tokenizeMarkers text) []
            (tokenizeMarkers_noAdjUU text)
            (fun a c ha _ => by cases ha) rfl seg.text hp)

/-! ### String primitive lemmas -/

theorem break_isPySpace (c : Char) (h : isLineBreak c = true) :
    isPySpace c = true := by
  simp only [isLineBreak, Bool.or_eq_true, decide_eq_true_eq] at h
  rcases h with
    (((((((((rfl | rfl) | rfl) | rfl) | rfl) | rfl) | rfl) | rfl) | rfl) |
      rfl) <;>
    decide

theorem ne_cr_of_not_break (a : Char) (ha : isLineBreak a = false) :
    a ≠ '\r' := by
  intro h
  rw [h] at ha
  exact absurd ha (by decide)

theorem head_dropWhile_not (p : Char → Bool) :
    ∀ (l : List Char) (c : Char), (l.dropWhile p).head? = some c →
      p c = false := by
  intro l
  induction l with
  | nil => intro c h; simp [List.dropWhile] at h
  | cons a l ih =>
    intro c h
    by_cases hp : p a = true
    · rw [List.dropWhile_cons_of_pos hp] at h
      exact ih c h
    · rw [List.dropWhile_cons_of_neg hp] at h
      simp only [List.head?_cons, Option.some.injEq] at h
      rw [← h]
      simpa using hp

theorem getLast?_dropWhile (p : Char → Bool) :
    ∀ (l : List Char), l.dropWhile p ≠ [] →
      (l.dropWhile p).getLast? = l.getLast? := by
  intro l
  induction l with
  | nil => intro h; simp [List.dropWhile] at h
  | cons a l ih =>
    intro h
    by_cases hp : p a = true
    · rw [List.dropWhile_cons_of_pos hp] at h ⊢
      rw [ih h]
      cases l with
      | nil => simp [List.dropWhile] at h
      | cons b l' => rfl
    · rw [List.dropWhile_cons_of_neg hp]

theorem mem_dropWhile_of_mem (p : Char → Bool) :
    ∀ (l : List Char) (c : Char), c ∈ l → p c = false →
      c ∈ l.dropWhile p := by
  intro l
  induction l with
  | nil => intro c hc; simp at hc
  | cons a l ih =>
    intro c hc hp
    by_cases hpa : p a = true
    · rw [List.dropWhile_cons_of_pos hpa]
      rcases List.mem_cons.mp hc with rfl | hc
      · rw [hp] at hpa; cases hpa
      · exact ih c hc hp
    · rw [List.dropWhile_cons_of_neg hpa]
      exact hc

theorem dropWhile_eq_self_of_head (p : Char → Bool) (l : List Char)
    (h : ∀ c, l.head? = some c → p c = false) : l.dropWhile p = l := by
  cases l with
  | nil => rfl
  | cons a l => exact List.dropWhile_cons_of_neg (by simp [h a rfl])

theorem pyStrip_subset (l : List Char) : ∀ c ∈ pyStrip l, c ∈ l := by
  intro c hc
  unfold pyStrip at hc
  rw [List.mem_reverse] at hc
  have h1 := (List.dropWhile_sublist isPySpace).subset hc
  rw [List.mem_reverse] at h1
  exact (List.dropWhile_sublist isPySpace).subset h1

theorem pyStrip_ne_nil (l : List Char) (c : Char) (hc : c ∈ l)
    (hp : isPySpace c = false) : pyStrip l ≠ [] := by
  have h1 : c ∈ l.dropWhile isPySpace := mem_dropWhile_of_mem _ l c hc hp
  have h2 : c ∈ (l.dropWhile isPySpace).reverse := List.mem_reverse.mpr h1
  have h3 : c ∈ (l.dropWhile isPySpace).reverse.dropWhile isPySpace :=
    mem_dropWhile_of_mem _ _ c h2 hp
  intro h
  unfold pyStrip at h
  rw [List.reverse_eq_nil_iff] at h
  rw [h] at h3
  simp at h3

theorem pyStrip_head (l : List Char) (c : Char)
    (h : (pyStrip l).head? = some c) : isPySpace c = false := by
  unfold pyStrip at h
  rw [List.head?_reverse] at h
  have hne : (l.dropWhile isPySpace).reverse.dropWhile isPySpace ≠ [] := by
    intro h0
    rw [h0] at h
    simp at h
  rw [getLast?_dropWhile isPySpace _ hne] at h
  rw [List.getLast?_reverse] at h
  exact head_dropWhile_not isPySpace l c h

theorem pyStrip_getLast (l : List Char) (c : Char)
    (h : (pyStrip l).getLast? = some c) : isPySpace c = false := by
  unfold pyStrip at h
  rw [List.getLast?_reverse] at h
  exact head_dropWhile_not isPySpace _ c h

theorem pyStrip_eq_self (l : List Char)
    (hh : ∀ c, l.head? = some c → isPySpace c = false)
    (hl : ∀ c, l.getLast? = some c → isPySpace c = false) : pyStrip l = l := by
  unfold pyStrip
  rw [dropWhile_eq_self_of_head isPySpace l hh]
  rw [dropWhile_eq_self_of_head isPySpace l.reverse
    (fun c hc => hl c (by rwa [List.head?_reverse] at hc))]
  exact List.reverse_reverse l

theorem pyStrip_idem (l : List Char) : pyStrip (pyStrip l) = pyStrip l := by
  by_cases h : pyStrip l = []
  · rw [h]; rfl
  · exact pyStrip_eq_self _ (fun c hc => pyStrip_head l c hc)
      (fun c hc => pyStrip_getLast l c hc)

theorem pySplitlines_no_break :
    ∀ (s : List Char), ∀ piece ∈ pySplitlines s, ∀ c ∈ piece,
      isLineBreak c = false := by
  intro s
  induction s using pySplitlines.induct with
  | case1 => intro piece h; simp [pySplitlines] at h
  | case2 c0 hbr =>
    intro piece h c' hc'
    simp only [pySplitlines, if_pos hbr] at h
    rcases List.mem_singleton.mp h with rfl
    simp at hc'
  | case3 c0 hbr =>
    intro piece h c' hc'
    simp only [pySplitlines, if_neg hbr] at h
    rcases List.mem_singleton.mp h with rfl
    rcases List.mem_singleton.mp hc' with rfl
    simpa using hbr
  | case4 c1 c2 cs hrn ih =>
    intro piece h c' hc'
    simp only [pySplitlines, if_pos hrn] at h
    rcases List.mem_cons.mp h with rfl | h
    · simp at hc'
    · exact ih piece h c' hc'
  | case5 c1 c2 cs hrn hbr ih =>
    intro piece h c' hc'
    simp only [pySplitlines, if_neg hrn, if_pos hbr] at h
    rcases List.mem_cons.mp h with rfl | h
    · simp at hc'
    · exact ih piece h c' hc'
  | case6 c1 c2 cs hrn hbr hnil ih =>
    intro piece h c' hc'
    simp only [pySplitlines, if_neg hrn, if_neg hbr, hnil] at h
    rcases List.mem_singleton.mp h with rfl
    rcases List.mem_singleton.mp hc' with rfl
    simpa using hbr
  | case7 c1 c2 cs hrn hbr l ls hcons ih =>
    intro piece h c' hc'
    simp only [pySplitlines, if_neg hrn, if_neg hbr, hcons] at h
    rcases List.mem_cons.mp h with rfl | h
    · rcases List.mem_cons.mp hc' with rfl | hc'
      · simpa using hbr
      · exact ih l (by rw [hcons]; exact List.mem_cons_self _ _) c' hc'
    · exact ih piece (by rw [hcons]; exact List.mem_cons_of_mem _ h) c' hc'

theorem pySplitlines_covers :
    ∀ (s : List Char) (c : Char), c ∈ s → isLineBreak c = false →
      ∃ piece ∈ pySplitlines s, c ∈ piece := by
  intro s
  induction s using pySplitlines.induct with
  | case1 => intro c hc _; simp at hc
  | case2 c0 hbr =>
    intro c hc hbrc
    rcases List.mem_singleton.mp hc with rfl
    rw [hbrc] at hbr
    cases hbr
  | case3 c0 hbr =>
    intro c hc hbrc
    rcases List.mem_singleton.mp hc with rfl
    refine ⟨[c], ?_, List.mem_singleton_self c⟩
    simp [pySplitlines, if_neg hbr]
  | case4 c1 c2 cs hrn ih =>
    intro c hc hbrc
    have h12 : c1 = '\r' ∧ c2 = '\n' := by simpa using hrn
    rcases List.mem_cons.mp hc with rfl | hc
    · rw [h12.1] at hbrc
      exact absurd hbrc (by decide)
    rcases List.mem_cons.mp hc with rfl | hc
    · rw [h12.2] at hbrc
      exact absurd hbrc (by decide)
    rcases ih c hc hbrc with ⟨piece, hp, hcp⟩
    refine ⟨piece, ?_, hcp⟩
    simp only [pySplitlines, if_pos hrn]
    exact List.mem_cons_of_mem _ hp
  | case5 c1 c2 cs hrn hbr ih =>
    intro c hc hbrc
    rcases List.mem_cons.mp hc with rfl | hc
    · rw [hbrc] at hbr; cases hbr
    · rcases ih c hc hbrc with ⟨piece, hp, hcp⟩
      refine ⟨piece, ?_, hcp⟩
      simp only [pySplitlines, if_neg hrn, if_pos hbr]
      exact List.mem_cons_of_mem _ hp
  | case6 c1 c2 cs hrn hbr hnil ih =>
    intro c hc hbrc
    rcases List.mem_cons.mp hc with rfl | hc
    · refine ⟨[c], ?_, List.mem_singleton_self c⟩
      simp only [pySplitlines, if_neg hrn, if_neg hbr, hnil]
      exact List.mem_singleton_self _
    · rcases ih c hc hbrc with ⟨piece, hp, hcp⟩
      rw [hnil] at hp
      simp at hp
  | case7 c1 c2 cs hrn hbr l ls hcons ih =>
    intro c hc hbrc
    rcases List.mem_cons.mp hc with rfl | hc
    · refine ⟨c :: l, ?_, List.mem_cons_self _ _⟩
      simp only [pySplitlines, if_neg hrn, if_neg hbr, hcons]
      exact List.mem_cons_self _ _
    · rcases ih c hc hbrc with ⟨piece, hp, hcp⟩
      rw [hcons] at hp
      rcases List.mem_cons.mp hp with rfl | hp
      · refine ⟨c1 :: piece, ?_, List.mem_cons_of_mem _ hcp⟩
        simp only [pySplitlines, if_neg hrn, if_neg hbr, hcons]
        exact List.mem_cons_self _ _
      · refine ⟨piece, ?_, hcp⟩
        simp only [pySplitlines, if_neg hrn, if_neg hbr, hcons]
        exact List.mem_cons_of_mem _ hp

theorem pySplitlines_newline_cons (t : List Char) :
    pySplitlines ('\n' :: t) = [] :: pySplitlines t := by
  cases t with
  | nil => decide
  | cons b t' =>
    simp only [pySplitlines]
    rw [if_neg (by simp), if_pos (by decide)]

theorem pySplitlines_append_line :
    ∀ (l t : List Char), (∀ c ∈ l, isLineBreak c = false) →
      pySplitlines (l ++ '\n' :: t) = l :: pySplitlines t := by
  intro l
  induction l with
  | nil => intro t _; simpa using pySplitlines_newline_cons t
  | cons a l ih =>
    intro t hl
    have ha : isLineBreak a = false := hl a (List.mem_cons_self _ _)
    have har : a ≠ '\r' := ne_cr_of_not_break a ha
    cases l with
    | nil =>
      simp only [List.nil_append, List.cons_append]
      simp only [pySplitlines]
      rw [if_neg (by simp [har]), if_neg (by simp [ha])]
      rw [pySplitlines_newline_cons t]
    | cons b l' =>
      simp only [List.cons_append]
      simp only [pySplitlines]
      rw [if_neg (by simp [har]), if_neg (by simp [ha])]
      rw [← List.cons_append]
      rw [ih t (fun c hc => hl c (List.mem_cons_of_mem _ hc))]

theorem pySplitlines_single :
    ∀ (l : List Char), l ≠ [] → (∀ c ∈ l, isLineBreak c = false) →
      pySplitlines l = [l] := by
  intro l
  induction l with
  | nil => intro h; exact absurd rfl h
  | cons a l ih =>
    intro _ hl
    have ha : isLineBreak a = false := hl a (List.mem_cons_self _ _)
    have har : a ≠ '\r' := ne_cr_of_not_break a ha
    cases l with
    | nil =>
      simp only [pySplitlines]
      rw [if_neg (by simp [ha])]
    | cons b l' =>
      simp only [pySplitlines]
      rw [if_neg (by simp [har]), if_neg (by simp [ha])]
      rw [ih (by simp) (fun c hc => hl c (List.mem_cons_of_mem _ hc))]

theorem pySplitlines_joinNL :
    ∀ (ls : List (List Char)), ls ≠ [] → (∀ l ∈ ls, l ≠ []) →
      (∀ l ∈ ls, ∀ c ∈ l, isLineBreak c = false) →
      pySplitlines (joinNL ls) = ls := by
  intro ls
  induction ls with
  | nil => intro h; exact absurd rfl h
  | cons l ls ih =>
    intro _ h1 h2
    cases ls with
    | nil =>
      simp only [joinNL]
      exact pySplitlines_single l (h1 l (List.mem_singleton_self l))
        (h2 l (List.mem_singleton_self l))
    | cons x xs =>
      simp only [joinNL]
      rw [pySplitlines_append_line l (joinNL (x :: xs))
        (h2 l (List.mem_cons_self _ _))]
      rw [ih (by simp) (fun y hy => h1 y (List.mem_cons_of_mem _ hy))
        (fun y hy => h2 y (List.mem_cons_of_mem _ hy))]

theorem joinNL_ne_nil (l : List Char) (ls : List (List Char)) (h : l ≠ []) :
    joinNL (l :: ls) ≠ [] := by
  cases ls with
  | nil => simpa [joinNL] using h
  | cons x xs => simp [joinNL]

theorem joinNL_head (l : List Char) (ls : List (List Char)) (h : l ≠ []) :
    (joinNL (l :: ls)).head? = l.head? := by
  cases ls with
  | nil => rfl
  | cons x xs =>
    simp only [joinNL]
    cases l with
    | nil => exact absurd rfl h
    | cons a l' => rfl

theorem joinNL_getLast :
    ∀ (ls : List (List Char)), (∀ l ∈ ls, l ≠ []) → ∀ (c : Char),
      (joinNL ls).getLast? = some c → ∃ l ∈ ls, l.getLast? = some c := by
  intro ls
  induction ls with
  | nil => intro _ c h; simp [joinNL] at h
  | cons l ls ih =>
    intro h1 c hc
    cases ls with
    | nil =>
      refine ⟨l, List.mem_singleton_self l, ?_⟩
      simpa [joinNL] using hc
    | cons x xs =>
      simp only [joinNL] at hc
      rw [List.getLast?_append] at hc
      have hxne : joinNL (x :: xs) ≠ [] :=
        joinNL_ne_nil x xs (h1 x (List.mem_cons_of_mem _ (List.mem_cons_self _ _)))
      have h2 : ('\n' :: joinNL (x :: xs)).getLast? =
          (joinNL (x :: xs)).getLast? := by
        cases hj : joinNL (x :: xs) with
        | nil => exact absurd hj hxne
        | cons y ys => rfl
      rw [h2] at hc
      cases hg : (joinNL (x :: xs)).getLast? with
      | none =>
        rw [hg] at hc
        simp only [Option.or] at hc
        exact ⟨l, List.mem_cons_self _ _, hc⟩
      | some y =>
        rw [hg] at hc
        simp only [Option.or, Option.some.injEq] at hc
        rcases ih (fun z hz => h1 z (List.mem_cons_of_mem _ hz)) c
          (by rw [hg, hc]) with ⟨l', hl', hgl⟩
        exact ⟨l', List.mem_cons_of_mem _ hl', hgl⟩

theorem stripLines_mem (t x : List Char) (hx : x ∈ stripLines t) :
    pyStrip x = x ∧ x ≠ [] ∧ ∀ c ∈ x, isLineBreak c = false := by
  unfold stripLines at hx
  rcases List.mem_filterMap.mp hx with ⟨ln, hln, hf⟩
  by_cases h0 : pyStrip ln = []
  · rw [if_pos h0] at hf; cases hf
  · rw [if_neg h0] at hf
    injection hf with hf
    refine ⟨by rw [← hf]; exact pyStrip_idem ln, by rw [← hf]; exact h0, ?_⟩
    intro c hc
    rw [← hf] at hc
    exact pySplitlines_no_break t ln hln c (pyStrip_subset ln c hc)

theorem filterMap_ne_nil_of_mem {α β : Type} (f : α → Option β)
    (l : List α) (a : α) (ha : a ∈ l) (b : β) (hb : f a = some b) :
    l.filterMap f ≠ [] := by
  intro hnil
  have := List.filterMap_eq_nil_iff.mp hnil a ha
  rw [hb] at this
  cases this

theorem stripLines_ne_nil_of (text : List Char) (h : pyStrip text ≠ []) :
    stripLines (pyStrip text) ≠ [] := by
  cases hh : (pyStrip text).head? with
  | none =>
    rw [List.head?_eq_none_iff] at hh
    exact absurd hh h
  | some c =>
    have hcsp : isPySpace c = false := pyStrip_head text c hh
    have hcbr : isLineBreak c = false := by
      cases hbr : isLineBreak c
      · rfl
      · rw [break_isPySpace c hbr] at hcsp; cases hcsp
    have hcm : c ∈ pyStrip text := List.mem_of_mem_head? (by rw [hh]; rfl)
    rcases pySplitlines_covers (pyStrip text) c hcm hcbr with ⟨piece, hp, hcp⟩
    have hpne : pyStrip piece ≠ [] := pyStrip_ne_nil piece c hcp hcsp
    unfold stripLines
    exact filterMap_ne_nil_of_mem _ _ piece hp (pyStrip piece)
      (by rw [if_neg hpne])

theorem filterMap_strip_id :
    ∀ (ls : List (List Char)), (∀ x ∈ ls, pyStrip x = x ∧ x ≠ []) →
      ls.filterMap
        (fun ln => if pyStrip ln = [] then none else some (pyStrip ln)) =
        ls := by
  intro ls
  induction ls with
  | nil => intro _; rfl
  | cons x ls ih =>
    intro h
    rcases h x (List.mem_cons_self _ _) with ⟨h1, h2⟩
    rw [List.filterMap_cons]
    have hfx : (if pyStrip x = [] then none else some (pyStrip x)) =
        some x := by
      rw [if_neg (by rw [h1]; exact h2), h1]
    rw [hfx]
    rw [ih (fun y hy => h y (List.mem_cons_of_mem _ hy))]

/-! ### Claim theorems for the normalizer -/

/-- Claim C6: contrary to the spec, `normalize_text_for_slot` does NOT return
the text upper-cased on an all-caps-typical caption slot with a short title
phrase: the upper-cased local variable is discarded because the returned
`"\n".join(lines)` was computed from the original text.  `"summons"` on such
a slot comes back unchanged, not as `"SUMMONS"`. -/
theorem claim_C6 :
    looksLikeTitlePhrase "summons".toList = true ∧
    "summons".toList.length < 80 ∧
    normalize_text_for_slot "summons".toList ⟨"caption", "paragraph", "Normal"⟩
      (fun st => if st = "caption" then some ⟨true⟩ else none) =
      "summons".toList ∧
    "summons".toList ≠ "SUMMONS".toList := by
  refine ⟨by decide, by decide, by decide, by decide⟩

/-- Claim C7: `normalize_text_for_slot` is idempotent — normalizing an
already-normalized text is a no-op, for every text, slot and rulebook. -/
theorem claim_C7 (text : List Char) (slot : Slot)
    (rulesByType : String → Option TypeRules) :
    normalize_text_for_slot (normalize_text_for_slot text slot rulesByType)
        slot rulesByType =
      normalize_text_for_slot text slot rulesByType := by
  by_cases h0 : text = [] ∨ pyStrip text = []
  · have hr : normalize_text_for_slot text slot rulesByType = [] := by
      unfold normalize_text_for_slot
      rw [if_pos (by simpa using h0)]
      rcases h0 with h | h
      · rw [if_pos h]
      · by_cases ht : text = []
        · rw [if_pos ht]
        · rw [if_neg ht]; exact h
    rw [hr]
    unfold normalize_text_for_slot
    rw [if_pos (by simp), if_pos rfl]
  · push_neg at h0
    obtain ⟨ht, hs⟩ := h0
    have hlines : stripLines (pyStrip text) ≠ [] := stripLines_ne_nil_of text hs
    have hr : normalize_text_for_slot text slot rulesByType =
        joinNL (stripLines (pyStrip text)) := by
      unfold normalize_text_for_slot
      rw [if_neg (by simp [ht, hs]), if_neg hlines]
    have hmemprops : ∀ x ∈ stripLines (pyStrip text),
        pyStrip x = x ∧ x ≠ [] ∧ ∀ c ∈ x, isLineBreak c = false :=
      fun x hx => stripLines_mem _ x hx
    obtain ⟨l0, ls0, hcons⟩ : ∃ l0 ls0,
        stripLines (pyStrip text) = l0 :: ls0 := by
      cases hl : stripLines (pyStrip text) with
      | nil => exact absurd hl hlines
      | cons a b => exact ⟨a, b, rfl⟩
    have hl0 := hmemprops l0 (by rw [hcons]; exact List.mem_cons_self _ _)
    have hrne : joinNL (stripLines (pyStrip text)) ≠ [] := by
      rw [hcons]; exact joinNL_ne_nil l0 ls0 hl0.2.1
    have hrstrip : pyStrip (joinNL (stripLines (pyStrip text))) =
        joinNL (stripLines (pyStrip text)) := by
      apply pyStrip_eq_self
      · intro c hc
        rw [hcons, joinNL_head l0 ls0 hl0.2.1] at hc
        have hc' : (pyStrip l0).head? = some c := by rw [hl0.1]; exact hc
        exact pyStrip_head l0 c hc'
      · intro c hc
        rcases joinNL_getLast (stripLines (pyStrip text))
          (fun l hl => (hmemprops l hl).2.1) c hc with ⟨l', hl', hgl⟩
        have hg' : (pyStrip l').getLast? = some c := by
          rw [(hmemprops l' hl').1]; exact hgl
        exact pyStrip_getLast l' c hg'
    have hsplit : pySplitlines (joinNL (stripLines (pyStrip text))) =
        stripLines (pyStrip text) :=
      pySplitlines_joinNL _ hlines (fun l hl => (hmemprops l hl).2.1)
        (fun l hl => (hmemprops l hl).2.2)
    have hstripLines_r : stripLines (joinNL (stripLines (pyStrip text))) =
        stripLines (pyStrip text) := by
      have h1 : stripLines (joinNL (stripLines (pyStrip text))) =
          (pySplitlines (joinNL (stripLines (pyStrip text)))).filterMap
            (fun ln => if pyStrip ln = [] then none else some (pyStrip ln)) :=
        rfl
      rw [h1, hsplit]
      exact filterMap_strip_id _
        (fun x hx => ⟨(hmemprops x hx).1, (hmemprops x hx).2.1⟩)
    rw [hr]
    unfold normalize_text_for_slot
    rw [if_neg (by simp [hrne, hrstrip])]
    rw [hrstrip, hstripLines_r, if_neg hlines]

/-! ### Classifier lemmas and claim theorems -/

theorem getLast?_replicate_succ (m : Nat) (c : Char) :
    (List.replicate (m + 1) c).getLast? = some c := by
  induction m with
  | zero => rfl
  | succ m ih =>
    rw [List.replicate_succ] at ih ⊢
    rw [List.replicate_succ]
    exact ih

theorem pyStrip_replicate_underscore (n : Nat) (h : 1 ≤ n) :
    pyStrip (List.replicate n '_') = List.replicate n '_' := by
  obtain ⟨m, rfl⟩ : ∃ m, n = m + 1 := ⟨n - 1, by omega⟩
  apply pyStrip_eq_self
  · intro c hc
    rw [List.replicate_succ] at hc
    simp only [List.head?_cons, Option.some.injEq] at hc
    rw [← hc]
    decide
  · intro c hc
    rw [getLast?_replicate_succ] at hc
    simp only [Option.some.injEq] at hc
    rw [← hc]
    decide

/-- Claim C4: the scenario-D paragraph classifies as a numbered paragraph and
not as a legal allegation — the anchored allegation patterns cannot match
past the leading `1. ` token, and the `^\d+[\.\)]\s+` rule fires. -/
theorem claim_C4 :
    classify_paragraph
      (strL "1. That on June 1, 2023, defendant failed to maintain...") =
      NUMBERED_PARAGRAPH ∧
    classify_paragraph
      (strL "1. That on June 1, 2023, defendant failed to maintain...") ≠
      LEGAL_ALLEGATION := by
  refine ⟨by decide, by decide⟩

/-- Claim C5 counterexample: `"===="` is composed solely of equals signs —
a string the claim says classifies as the separator/line role — but the
separator check accepts only spaces, tabs, underscores, hyphens, periods and
no-break spaces, so `"===="` falls through the whole chain to the body
role. -/
theorem claim_C5_counterexample :
    classify_paragraph (strL "====") ≠ LINE ∧
    classify_paragraph (strL "====") = BODY_PARAGRAPH := by
  refine ⟨by decide, by decide⟩

/-- Claim C5 (amended): every string accepted by the separator-line check —
stripped length at least 3 and, after optionally dropping one trailing
`X`/`x`, composed solely of spaces, tabs, underscores, hyphens, periods and
no-break spaces (equals signs are NOT accepted) — classifies as the
separator/line role. -/
theorem claim_C5 (s : List Char) (h : isSeparatorLine s = true) :
    classify_paragraph s = LINE := by
  have hne : pyStrip s ≠ [] := by
    intro h0
    unfold isSeparatorLine at h
    rw [h0] at h
    simp at h
  have hsep : isSeparatorLine (pyStrip s) = true := by
    unfold isSeparatorLine at h ⊢
    rw [pyStrip_idem]
    exact h
  unfold classify_paragraph classifyCore
  rw [if_neg hne, if_pos hsep]

/-- Witness for claim C5 at the concrete separator `"---"`. -/
theorem claim_C5_witness :
    isSeparatorLine (strL "---") = true ∧
    classify_paragraph (strL "---") = LINE :=
  ⟨by decide, claim_C5 (strL "---") (by decide)⟩

/-- Claim C9: a pure-underscore line of length at least 3 is caught by the
generic separator-line check, so `classify_paragraph` returns the
separator/line role and never the dedicated signature-line role for such
input. -/
theorem claim_C9 (n : Nat) (h : 3 ≤ n) :
    classify_paragraph (List.replicate n '_') = LINE ∧
    classify_paragraph (List.replicate n '_') ≠ SIGNATURE_LINE := by
  have hstrip : pyStrip (List.replicate n '_') = List.replicate n '_' :=
    pyStrip_replicate_underscore n (by omega)
  have hlen : (List.replicate n '_').length = n := List.length_replicate n _
  have hne : List.replicate n '_' ≠ [] := by
    intro h0
    have := congrArg List.length h0
    rw [hlen] at this
    simp at this
    omega
  obtain ⟨m, rfl⟩ : ∃ m, n = m + 1 := ⟨n - 1, by omega⟩
  have hsep : isSeparatorLine (List.replicate (m + 1) '_') = true := by
    unfold isSeparatorLine
    rw [hstrip]
    rw [if_neg (by simp [hne, hlen]; omega)]
    have hx : endsWithList (strL "X") (List.replicate (m + 1) '_') = false := by
      unfold endsWithList
      rw [List.reverse_replicate, List.replicate_succ]
      rfl
    have hx2 : endsWithList (strL "x") (List.replicate (m + 1) '_') =
        false := by
      unfold endsWithList
      rw [List.reverse_replicate, List.replicate_succ]
      rfl
    have hcore : sepCore (List.replicate (m + 1) '_') =
        List.replicate (m + 1) '_' := by
      unfold sepCore
      rw [if_neg (by rw [hx, hx2]; simp)]
    rw [hcore]
    apply List.all_eq_true.mpr
    intro c hc
    rw [List.eq_of_mem_replicate hc]
    decide
  have hclass : classify_paragraph (List.replicate (m + 1) '_') = LINE := by
    unfold classify_paragraph classifyCore
    rw [hstrip, if_neg hne, if_pos hsep]
  exact ⟨hclass, by rw [hclass]; decide⟩

/-- Witness for claim C9 at five underscores. -/
theorem claim_C9_witness :
    3 ≤ 5 ∧ (classify_paragraph (List.replicate 5 '_') = LINE ∧
      classify_paragraph (List.replicate 5 '_') ≠ SIGNATURE_LINE) :=
  ⟨by decide, claim_C9 5 (by decide)⟩

end DocGen


